import Mathlib

/-!
# atyper: the configuration parser and the display commands

A shallow embedding of `src/atyper.cpp`.

* A `std::string` is a list of characters (`Str`), one `Char` per `char`.
* The file read by `std::getline` is its content cut at newlines (`getlines`).
* `std::map<std::string, std::string>` is an association list kept in strictly
  ascending key order by `ArtMap.assign` (the embedding of `operator[]` followed
  by an assignment); the order is the one of `std::string::operator<` (`strLt`).
* The local variables of the parse loop of `load_config` form a `ParseState`;
  one iteration of the loop is `step`.
* Text sent to `std::cout` is returned as a `Str`.
* The explicit two-state machine of the design notes (`machineParse`) is a second,
  independent definition; it is compared with the loop, not derived from it.
* `size_t` values are natural numbers: the only arithmetic is `size() + 1` on the
  size of a map held in memory, which cannot wrap.
-/

namespace Atyper

/-- A `std::string`. -/
abbrev Str := List Char

/-- The literal `"###ART_START:"` (13 characters). -/
def ART_START : Str := "###ART_START:".toList

/-- The literal `"###ART_END###"`. -/
def ART_END : Str := "###ART_END###".toList

/-- The literal `"###"`. -/
def HASHES : Str := "###".toList

/-- The literal `"unnamed_"`. -/
def UNNAMED : Str := "unnamed_".toList

/-- The newline character as a string. -/
def NL : Str := ['\n']

/-- Search loop of `std::string::find`: `s` is the part of the string from
absolute index `i` on; the result is the least index at which `pat` occurs. -/
def findFrom (pat : Str) : Str → Nat → Option Nat
  | [], i => if pat.isPrefixOf [] then some i else none
  | c :: cs, i => if pat.isPrefixOf (c :: cs) then some i else findFrom pat cs (i + 1)

/-- The call `s.find(pat, pos)`; `none` stands for `std::string::npos`. -/
def find (s pat : Str) (pos : Nat) : Option Nat :=
  if pos ≤ s.length then findFrom pat (s.drop pos) pos else none

/-- The call `s.substr(pos, len)` for `pos ≤ s.size()`. -/
def substr (s : Str) (pos len : Nat) : Str := (s.drop pos).take len

/-- The call `std::to_string(n)` on an unsigned integer: decimal digits. -/
def to_string (n : Nat) : Str := Nat.toDigits 10 n

/-- The comparison `a < b` of two `std::string`s: lexicographic on the character
codes, a proper prefix being smaller. -/
def strLt : Str → Str → Bool
  | [], [] => false
  | [], _ :: _ => true
  | _ :: _, [] => false
  | a :: as, b :: bs =>
      if a.toNat < b.toNat then true
      else if b.toNat < a.toNat then false
      else strLt as bs

/-- The member `ascii_arts`: the entries of a `std::map`, in iteration order. -/
abbrev ArtMap := List (Str × Str)

namespace ArtMap

/-- The statement `m[k] = v`: the entry with a key equivalent to `k` gets the value
`v`; when there is none, `(k, v)` is inserted at its place in the order. -/
def assign : ArtMap → Str → Str → ArtMap
  | [], k, v => [(k, v)]
  | (k', v') :: rest, k, v =>
      if strLt k k' then (k, v) :: (k', v') :: rest
      else if strLt k' k then (k', v') :: assign rest k v
      else (k', v) :: rest

/-- The call `m.find(k)`: the value of the entry whose key is equivalent to `k`
under the map's comparison (neither is less than the other). -/
def find : ArtMap → Str → Option Str
  | [], _ => none
  | (k', v') :: rest, k =>
      if !strLt k k' && !strLt k' k then some v' else find rest k

/-- The call `m.size()`. -/
def size (m : ArtMap) : Nat := m.length

/-- The keys in iteration order. -/
def keys (m : ArtMap) : List Str := m.map Prod.fst

/-- The class invariant of `std::map`: keys strictly ascending. -/
def Sorted (m : ArtMap) : Prop := List.Pairwise (fun a b => strLt a b = true) (keys m)

instance decidableSorted (m : ArtMap) : Decidable (Sorted m) :=
  inferInstanceAs (Decidable (List.Pairwise (fun a b => strLt a b = true) (keys m)))

end ArtMap

/-- The local variables of the parse loop together with the member `ascii_arts`. -/
structure ParseState where
  ascii_arts : ArtMap
  current_art : Str
  current_name : Str
  in_art : Bool
deriving DecidableEq, Repr

/-- The test `line.find("###ART_START:") == 0`. -/
def isStartLine (line : Str) : Bool := find line ART_START 0 == some 0

/-- The name given to a block by its start line (lines 50-56): the text from
position 13 up to the next `###`, or a generated name when there is none. -/
def header_name (arts : ArtMap) (line : Str) : Str :=
  let start_pos := 13
  match find line HASHES start_pos with
  | some end_pos => substr line start_pos (end_pos - start_pos)
  | none => UNNAMED ++ to_string (arts.size + 1)

/-- One iteration of the `while (std::getline(file, line))` loop. -/
def step (st : ParseState) (line : Str) : ParseState :=
  if isStartLine line then
    { st with
      in_art := true
      current_art := []
      current_name := header_name st.ascii_arts line }
  else if line = ART_END then
    { st with
      in_art := false
      ascii_arts :=
        if st.current_art ≠ [] ∧ st.current_name ≠ [] then
          st.ascii_arts.assign st.current_name st.current_art
        else st.ascii_arts }
  else if st.in_art then
    { st with current_art := st.current_art ++ line ++ NL }
  else st

/-- The state in which the loop starts, for a given content of `ascii_arts`. -/
def initState (arts : ArtMap) : ParseState :=
  { ascii_arts := arts, current_art := [], current_name := [], in_art := false }

/-- The whole loop over the lines of the file. -/
def runLines (st : ParseState) (lines : List Str) : ParseState := lines.foldl step st

/-- The parse loop of `load_config`, started from an empty collection. -/
def parse (lines : List Str) : ArtMap := (runLines (initState []) lines).ascii_arts

/-- Reading loop of `std::getline`: `cur` holds the characters of the line being read. -/
def getlinesAux : Str → Str → List Str
  | [], cur => if cur = [] then [] else [cur]
  | c :: cs, cur => if c = '\n' then cur :: getlinesAux cs [] else getlinesAux cs (cur ++ [c])

/-- The successive results of `std::getline` on a stream with the given content. -/
def getlines (content : Str) : List Str := getlinesAux content []

/-- What the loop appends to `current_art` for the lines of a block. -/
def joinLines : List Str → Str
  | [] => []
  | l :: ls => l ++ NL ++ joinLines ls

/-- An invariant of the parse loop: outside a block, the variables left over from the
last block are either not committable or already in the collection. -/
def Settled (st : ParseState) : Prop :=
  st.in_art = false → st.current_art ≠ [] → st.current_name ≠ [] →
    st.ascii_arts.assign st.current_name st.current_art = st.ascii_arts

/-! ## The configuration object and the file system -/

/-- The part of the file system the program touches: the configuration file. -/
structure World where
  /-- Content of `config_file`; `none` when the file does not exist. -/
  file : Option Str
  /-- Whether opening `config_file` for writing succeeds. -/
  writable : Bool
  /-- How many times the file has been written. -/
  writes : Nat
deriving DecidableEq, Repr

/-- The members of the class `RASCIIConfig`. -/
structure RASCIIConfig where
  config_dir : Str
  config_file : Str
  ascii_arts : ArtMap
deriving DecidableEq, Repr

/-- The text that `create_default_config` sends to the file (lines 72-80). -/
def default_config : Str :=
  "###ART_START:tux###\n".toList ++
  "    .--.\n".toList ++
  "   |o_o |\n".toList ++
  "   |:_/ |\n".toList ++
  "  //   \\ \\\n".toList ++
  " (|     | )\n".toList ++
  "/'\\_   _/`\\\n".toList ++
  "\\___)=(___/\n".toList ++
  "###ART_END###\n".toList

/-- Lines 71-81 of `create_default_config`: the file is created with the default text;
when the stream cannot be opened nothing is written. -/
def write_default_config (w : World) : World :=
  if w.writable then { w with file := some default_config, writes := w.writes + 1 } else w

mutual

/-- The method `load_config`. The two methods call each other; `fuel` bounds the depth
of the calls, `none` means that the bound was reached. -/
def load_config : Nat → World → RASCIIConfig → Option (World × RASCIIConfig)
  | 0, _, _ => none
  | fuel + 1, w, c =>
      match w.file with
      | none => create_default_config fuel w c
      | some content =>
          some (w, { c with
            ascii_arts := (runLines (initState c.ascii_arts) (getlines content)).ascii_arts })

/-- The method `create_default_config`. -/
def create_default_config : Nat → World → RASCIIConfig → Option (World × RASCIIConfig)
  | 0, _, _ => none
  | fuel + 1, w, c => load_config fuel (write_default_config w) c

end

/-- The constructor of `RASCIIConfig`, for the home directory `home`. -/
def RASCIIConfig.new (fuel : Nat) (home : Str) (w : World) : Option (World × RASCIIConfig) :=
  let config_dir := home ++ "/.config/atyper".toList
  let config_file := config_dir ++ "/atyper.conf".toList
  load_config fuel w { config_dir := config_dir, config_file := config_file, ascii_arts := [] }

/-- The loop of `show_art_by_name` that prints the names: the state is the text printed
so far and the flag `first`. -/
def show_names (arts : ArtMap) (out : Str) : Str × Bool :=
  arts.foldl
    (fun (acc : Str × Bool) art =>
      ((if !acc.2 then acc.1 ++ ", ".toList else acc.1) ++ art.1, false))
    (out, true)

/-- The method `show_art_by_name`: the text printed. -/
def show_art_by_name (arts : ArtMap) (name : Str) : Str :=
  match arts.find name with
  | some body => body ++ NL
  | none =>
      (show_names arts
        ("ASCII art '".toList ++ name ++ "' not found!\n".toList ++ "Available arts: ".toList)).1
        ++ NL

/-- The method `list_arts`: the text printed. -/
def list_arts (arts : ArtMap) (config_file : Str) : Str :=
  if arts.isEmpty then
    "No ASCII arts found.\n".toList ++ "Add your arts to: ".toList ++ config_file ++ NL
  else
    arts.foldl
      (fun out art => out ++ "Art: ".toList ++ art.1 ++ NL ++ art.2 ++ NL)
      ("Total ASCII arts: ".toList ++ to_string arts.size ++ "\n\n".toList)

/-- The function `print_help`: the text printed. -/
def print_help : Str :=
  "ATYPER - Named ASCII Art Display\n\n".toList ++
  "Usage:\n".toList ++
  "  atyper <art_name>    - Show specific ASCII art by name\n".toList ++
  "  atyper --list        - List all ASCII arts with names\n".toList ++
  "  atyper --help        - Show this help message\n".toList ++
  "  atyper --config      - Show config file path\n".toList ++
  "\nConfiguration file: ~/.config/atyper/atyper.conf\n".toList ++
  "Add your ASCII arts with format:\n".toList ++
  "###ART_START:ART_NAME###\n".toList ++
  "Your ASCII art here\n".toList ++
  "###ART_END###\n".toList

/-- The text printed by the dispatch of `main` (lines 143-158) for a constructed
configuration; `argv` is the whole argument vector, program name included. -/
def dispatch (config : RASCIIConfig) (argv : List Str) : Str :=
  match argv with
  | _ :: arg :: _ =>
      if arg = "--help".toList ∨ arg = "-h".toList then print_help
      else if arg = "--list".toList ∨ arg = "-l".toList then
        list_arts config.ascii_arts config.config_file
      else if arg = "--config".toList ∨ arg = "-c".toList then
        "Config file: ".toList ++ config.config_file ++ NL ++
        "Total arts: ".toList ++ to_string config.ascii_arts.size ++ NL
      else show_art_by_name config.ascii_arts arg
  | _ => print_help ++ "\nUse 'atyper --list' to see available arts.\n".toList

/-- The function `main`: the file system afterwards, the text printed and the exit code. -/
def main (fuel : Nat) (home : Str) (w : World) (argv : List Str) : Option (World × Str × Int) :=
  match RASCIIConfig.new fuel home w with
  | none => none
  | some (w', config) => some (w', dispatch config argv, 0)

/-! ## The two-state machine of the design notes -/

/-- Specification side of the refinement: the two states Outside-Block and
Inside-Block(name, body) of the explicit machine described in the design notes. The
source has no such type; its state is the flag `in_art` and two variables that outlive
a block (`ParseState`). -/
inductive BlockState where
  | outside : BlockState
  | inside (name body : Str) : BlockState
deriving DecidableEq, Repr

/-- Specification side of the refinement: one transition of the machine, on the
collection and the block state, written from the design notes. A start line from either
state opens a block with the extracted or generated name and an empty body; an end line
inside a block commits it when name and body are non-empty and leaves the block; an end
line outside changes nothing; any other line is appended with a newline inside a block
and ignored outside. -/
def machineStep (s : ArtMap × BlockState) (line : Str) : ArtMap × BlockState :=
  if isStartLine line then (s.1, BlockState.inside (header_name s.1 line) [])
  else if line = ART_END then
    match s.2 with
    | BlockState.inside name body =>
        (if name ≠ [] ∧ body ≠ [] then s.1.assign name body else s.1, BlockState.outside)
    | BlockState.outside => s
  else
    match s.2 with
    | BlockState.inside name body => (s.1, BlockState.inside name (body ++ line ++ NL))
    | BlockState.outside => s

/-- Specification side of the refinement: the run of the machine over all lines from the
empty collection in state Outside-Block; at the end of the input an open block is
discarded and the collection is the result. -/
def machineParse (lines : List Str) : ArtMap :=
  (lines.foldl machineStep (([] : ArtMap), BlockState.outside)).1

/-- The relation between a state of the loop and a state of the machine: same
collection; inside a block the machine holds the loop's name and body; outside a block
the loop's left-over variables are settled. -/
def Simulates (st : ParseState) (s : ArtMap × BlockState) : Prop :=
  st.ascii_arts = s.1 ∧
  (st.in_art = true → s.2 = BlockState.inside st.current_name st.current_art) ∧
  (st.in_art = false → s.2 = BlockState.outside ∧ Settled st)

/-! ## Auxiliary notions for the invariants -/

/-- The number written by a string of decimal digits (the inverse of `to_string`). -/
def digitsValue (acc : Nat) (cs : Str) : Nat :=
  cs.foldl (fun a c => 10 * a + (c.toNat - 48)) acc

/-- An invariant of the parse loop, used for the generated names: a key of the form
`unnamed_<j>` has `j` at most the size of the collection, and when `current_name` has
that form `j` is at most the size plus one. -/
def GeneratedBound (st : ParseState) : Prop :=
  (∀ key ∈ st.ascii_arts.keys, ∀ j, key = UNNAMED ++ to_string j → j ≤ st.ascii_arts.size) ∧
  (∀ j, st.current_name = UNNAMED ++ to_string j → j ≤ st.ascii_arts.size + 1)

/-- A body built by the loop from lines of the file `lines`: the concatenation, each
followed by a newline, of lines that are neither a start line nor the end marker. -/
def BuiltFrom (lines : List Str) (body : Str) : Prop :=
  ∃ Ls : List Str, body = joinLines Ls ∧
    ∀ l ∈ Ls, l ∈ lines ∧ isStartLine l = false ∧ l ≠ ART_END

/-- An invariant of the parse loop over the file `lines`: every stored key is non-empty
and has no `###`, every stored body is non-empty and built from interior lines, and the
same holds for the name and body under construction (which may still be empty). -/
def WellFormed (lines : List Str) (st : ParseState) : Prop :=
  (∀ e ∈ st.ascii_arts,
    e.1 ≠ [] ∧ ¬ HASHES <:+: e.1 ∧ e.2 ≠ [] ∧ BuiltFrom lines e.2) ∧
  ¬ HASHES <:+: st.current_name ∧
  BuiltFrom lines st.current_art

/-! ## Facts about the string primitives -/

theorem findFrom_ge (pat : Str) : ∀ (s : Str) (i e : Nat), findFrom pat s i = some e → i ≤ e
  | [], i, e, h => by
      unfold findFrom at h
      split at h
      · simp at h; omega
      · simp at h
  | c :: cs, i, e, h => by
      unfold findFrom at h
      split at h
      · simp at h; omega
      · have := findFrom_ge pat cs (i + 1) e h
        omega

/-- The search loop returns the least offset at which the pattern occurs. -/
theorem findFrom_eq_some (pat : Str) : ∀ (s : Str) (i k : Nat),
    k ≤ s.length → pat <+: s.drop k → (∀ j, j < k → ¬ pat <+: s.drop j) →
    findFrom pat s i = some (i + k)
  | [], i, k, hk, hp, _ => by
      have hk0 : k = 0 := by simpa using hk
      subst hk0
      have : pat.isPrefixOf [] = true := List.isPrefixOf_iff_prefix.mpr (by simpa using hp)
      simp [findFrom, this]
  | c :: cs, i, 0, _, hp, _ => by
      have : pat.isPrefixOf (c :: cs) = true := List.isPrefixOf_iff_prefix.mpr (by simpa using hp)
      simp [findFrom, this]
  | c :: cs, i, k + 1, hk, hp, hmin => by
      have h0 : ¬ pat <+: c :: cs := by simpa using hmin 0 (Nat.succ_pos k)
      have h0b : pat.isPrefixOf (c :: cs) = false := by
        cases hb : pat.isPrefixOf (c :: cs)
        · rfl
        · exact absurd (List.isPrefixOf_iff_prefix.mp hb) h0
      have ih := findFrom_eq_some pat cs (i + 1) k (by simpa using hk) (by simpa using hp)
        (fun j hj => by simpa using hmin (j + 1) (Nat.succ_lt_succ hj))
      unfold findFrom
      rw [h0b]
      simp only [Bool.false_eq_true, if_false]
      rw [ih]
      congr 1
      omega

/-- The search loop fails when the pattern occurs nowhere. -/
theorem findFrom_eq_none (pat : Str) : ∀ (s : Str) (i : Nat),
    (∀ j, j ≤ s.length → ¬ pat <+: s.drop j) → findFrom pat s i = none
  | [], i, h => by
      have h0 : ¬ pat <+: [] := by simpa using h 0 (Nat.le_refl _)
      have h0b : pat.isPrefixOf [] = false := by
        cases hb : pat.isPrefixOf ([] : Str)
        · rfl
        · exact absurd (List.isPrefixOf_iff_prefix.mp hb) h0
      unfold findFrom
      rw [h0b]
      simp
  | c :: cs, i, h => by
      have h0 : ¬ pat <+: c :: cs := by simpa using h 0 (Nat.zero_le _)
      have h0b : pat.isPrefixOf (c :: cs) = false := by
        cases hb : pat.isPrefixOf (c :: cs)
        · rfl
        · exact absurd (List.isPrefixOf_iff_prefix.mp hb) h0
      have ih := findFrom_eq_none pat cs (i + 1)
        (fun j hj => by simpa using h (j + 1) (by simpa using hj))
      unfold findFrom
      rw [h0b]
      simpa using ih

/-- The call `s.find(pat, pos)` returns `e` when `e` is the least index from `pos` on at
which `pat` occurs in `s`. -/
theorem find_eq_some (s pat : Str) (pos e : Nat) (hpe : pos ≤ e) (hes : e ≤ s.length)
    (hocc : pat <+: s.drop e) (hmin : ∀ j, pos ≤ j → j < e → ¬ pat <+: s.drop j) :
    find s pat pos = some e := by
  have hps : pos ≤ s.length := le_trans hpe hes
  unfold find
  rw [if_pos hps]
  have := findFrom_eq_some pat (s.drop pos) pos (e - pos)
    (by simp; omega)
    (by rw [List.drop_drop]; rw [show pos + (e - pos) = e by omega]; exact hocc)
    (fun j hj => by
      rw [List.drop_drop]
      exact hmin (pos + j) (by omega) (by omega))
  rw [this]
  congr 1
  omega

/-- The call `s.find(pat, pos)` returns `npos` when `pat` occurs at no index from `pos` on. -/
theorem find_eq_none (s pat : Str) (pos : Nat)
    (h : ∀ j, pos ≤ j → ¬ pat <+: s.drop j) : find s pat pos = none := by
  unfold find
  split
  · apply findFrom_eq_none
    intro j _
    rw [List.drop_drop]
    exact h (pos + j) (by omega)
  · rfl

/-- The test of the loop for a start line holds exactly for the lines beginning with the marker. -/
theorem isStartLine_iff (line : Str) : isStartLine line = true ↔ ART_START <+: line := by
  unfold isStartLine find
  simp only [Nat.zero_le, if_true, List.drop_zero, beq_iff_eq]
  cases line with
  | nil =>
      constructor
      · intro h
        simp [findFrom, ART_START] at h
      · intro h
        have := List.IsPrefix.length_le h
        simp [ART_START] at this
  | cons c cs =>
      unfold findFrom
      by_cases hb : ART_START.isPrefixOf (c :: cs) = true
      · simp only [hb, if_true, true_iff]
        exact List.isPrefixOf_iff_prefix.mp hb
      · simp only [hb]
        constructor
        · intro h
          have := findFrom_ge _ _ _ _ h
          omega
        · intro h
          exact absurd (List.isPrefixOf_iff_prefix.mpr h) hb

/-! ## Facts about the parse loop -/

theorem runLines_nil (st : ParseState) : runLines st [] = st := rfl

theorem runLines_cons (st : ParseState) (l : Str) (ls : List Str) :
    runLines st (l :: ls) = runLines (step st l) ls := rfl

theorem runLines_append (st : ParseState) (a b : List Str) :
    runLines st (a ++ b) = runLines (runLines st a) b := by
  simp [runLines, List.foldl_append]

theorem isStartLine_ART_END : isStartLine ART_END = false := by decide

/-- A start line opens a block: empty body, name taken from the line. -/
theorem step_start (st : ParseState) (h : Str) (hs : isStartLine h = true) :
    step st h = { ascii_arts := st.ascii_arts, current_art := [],
                  current_name := header_name st.ascii_arts h, in_art := true } := by
  simp [step, hs]

/-- The end line closes the block and commits it when body and name are non-empty. -/
theorem step_end (st : ParseState) :
    step st ART_END =
      { ascii_arts :=
          if st.current_art ≠ [] ∧ st.current_name ≠ [] then
            st.ascii_arts.assign st.current_name st.current_art
          else st.ascii_arts,
        current_art := st.current_art, current_name := st.current_name, in_art := false } := by
  simp [step, isStartLine_ART_END]

/-- Any other line inside a block is appended to the body with a newline. -/
theorem step_inside (st : ParseState) (l : Str) (hs : isStartLine l = false)
    (he : l ≠ ART_END) (hin : st.in_art = true) :
    step st l = { st with current_art := st.current_art ++ l ++ NL } := by
  simp [step, hs, he, hin]

/-- Any other line outside a block changes nothing. -/
theorem step_outside (st : ParseState) (l : Str) (hs : isStartLine l = false)
    (he : l ≠ ART_END) (hin : st.in_art = false) : step st l = st := by
  simp [step, hs, he, hin]

/-- The interior lines of an open block are accumulated in `current_art`. -/
theorem runLines_interior : ∀ (L : List Str) (st : ParseState), st.in_art = true →
    (∀ l ∈ L, isStartLine l = false ∧ l ≠ ART_END) →
    runLines st L = { st with current_art := st.current_art ++ joinLines L }
  | [], st, _, _ => by simp [runLines_nil, joinLines]
  | l :: ls, st, hin, hL => by
      have hl := hL l (List.mem_cons_self _ _)
      rw [runLines_cons, step_inside st l hl.1 hl.2 hin]
      rw [runLines_interior ls _ (by exact hin) (fun x hx => hL x (List.mem_cons_of_mem _ hx))]
      simp [joinLines, List.append_assoc]

/-- Only the end line changes the collection. -/
theorem step_arts_of_ne_end (st : ParseState) (l : Str) (he : l ≠ ART_END) :
    (step st l).ascii_arts = st.ascii_arts := by
  unfold step
  split_ifs <;> rfl

theorem runLines_arts_of_no_end : ∀ (L : List Str) (st : ParseState),
    (∀ l ∈ L, l ≠ ART_END) → (runLines st L).ascii_arts = st.ascii_arts
  | [], _, _ => rfl
  | l :: ls, st, hL => by
      rw [runLines_cons, runLines_arts_of_no_end ls _ (fun x hx => hL x (List.mem_cons_of_mem _ hx))]
      exact step_arts_of_ne_end st l (hL l (List.mem_cons_self _ _))

theorem joinLines_ne_nil (L : List Str) (h : L ≠ []) : joinLines L ≠ [] := by
  cases L with
  | nil => exact absurd rfl h
  | cons l ls => simp [joinLines, NL]

/-- A terminated block with interior lines `L` after a state `st`: the collection of
`st` with the block's name set to the body, when name and body are non-empty. -/
theorem runLines_block (st : ParseState) (h : Str) (L : List Str)
    (hs : isStartLine h = true)
    (hL : ∀ l ∈ L, isStartLine l = false ∧ l ≠ ART_END) :
    runLines st ([h] ++ L ++ [ART_END]) =
      { ascii_arts :=
          if joinLines L ≠ [] ∧ header_name st.ascii_arts h ≠ [] then
            st.ascii_arts.assign (header_name st.ascii_arts h) (joinLines L)
          else st.ascii_arts,
        current_art := joinLines L,
        current_name := header_name st.ascii_arts h,
        in_art := false } := by
  rw [runLines_append, runLines_append]
  rw [show runLines st [h] = step st h from rfl, step_start st h hs]
  rw [runLines_interior L _ rfl hL]
  rw [show ∀ s, runLines s [ART_END] = step s ART_END from fun _ => rfl, step_end]
  simp

theorem getlinesAux_line (l : Str) (hl : '\n' ∉ l) (rest cur : Str) :
    getlinesAux (l ++ NL ++ rest) cur = (cur ++ l) :: getlinesAux rest [] := by
  induction l generalizing cur with
  | nil => simp [NL, getlinesAux]
  | cons c cs ih =>
      have hc : c ≠ '\n' := fun h => hl (by simp [h])
      have hcs : '\n' ∉ cs := fun h => hl (List.mem_cons_of_mem _ h)
      have := ih hcs (cur ++ [c])
      simp only [List.cons_append, getlinesAux, hc, if_false]
      simpa using this

/-- Reading back a body line by line gives the lines it was built from. -/
theorem getlines_joinLines : ∀ (L : List Str), (∀ l ∈ L, '\n' ∉ l) →
    getlines (joinLines L) = L
  | [], _ => by simp [getlines, joinLines, getlinesAux]
  | l :: ls, hL => by
      have ih := getlines_joinLines ls (fun x hx => hL x (List.mem_cons_of_mem _ hx))
      unfold getlines at ih ⊢
      rw [joinLines, getlinesAux_line l (hL l (List.mem_cons_self _ _)), ih]
      simp

/-! ## The order on strings and the map -/

theorem strLt_irrefl : ∀ a : Str, strLt a a = false
  | [] => rfl
  | c :: cs => by simp [strLt, strLt_irrefl cs]

theorem strLt_asymm : ∀ a b : Str, strLt a b = true → strLt b a = false
  | [], [], h => by simp [strLt] at h
  | [], _ :: _, _ => by simp [strLt]
  | _ :: _, [], h => by simp [strLt] at h
  | a :: as, b :: bs, h => by
      unfold strLt at h ⊢
      by_cases h1 : a.toNat < b.toNat
      · have h2 : ¬ b.toNat < a.toNat := by omega
        simp [h1, h2]
      · by_cases h2 : b.toNat < a.toNat
        · simp [h1, h2] at h
        · simp only [h1, h2, if_false] at h ⊢
          exact strLt_asymm as bs h

theorem strLt_trans : ∀ a b c : Str, strLt a b = true → strLt b c = true → strLt a c = true
  | [], [], _, h, _ => by simp [strLt] at h
  | [], _ :: _, [], _, h => by simp [strLt] at h
  | [], _ :: _, _ :: _, _, _ => by simp [strLt]
  | _ :: _, [], _, h, _ => by simp [strLt] at h
  | _ :: _, _ :: _, [], _, h => by simp [strLt] at h
  | a :: as, b :: bs, c :: cs, hab, hbc => by
      unfold strLt at hab hbc ⊢
      by_cases h1 : a.toNat < b.toNat
      · by_cases h2 : b.toNat < c.toNat
        · have : a.toNat < c.toNat := by omega
          simp [this]
        · by_cases h3 : c.toNat < b.toNat
          · simp [h2, h3] at hbc
          · have : a.toNat < c.toNat := by omega
            simp [this]
      · by_cases h1b : b.toNat < a.toNat
        · simp [h1, h1b] at hab
        · simp only [h1, h1b, if_false] at hab
          by_cases h2 : b.toNat < c.toNat
          · have : a.toNat < c.toNat := by omega
            simp [this]
          · by_cases h3 : c.toNat < b.toNat
            · simp [h2, h3] at hbc
            · simp only [h2, h3, if_false] at hbc
              have e1 : ¬ a.toNat < c.toNat := by omega
              have e2 : ¬ c.toNat < a.toNat := by omega
              simp only [e1, e2, if_false]
              exact strLt_trans as bs cs hab hbc

theorem char_eq_of_toNat_eq (a b : Char) (h : a.toNat = b.toNat) : a = b := by
  apply Char.ext
  apply UInt32.ext
  exact h

/-- Two strings neither of which is less than the other are the same string. -/
theorem strLt_total : ∀ a b : Str, strLt a b = false → strLt b a = false → a = b
  | [], [], _, _ => rfl
  | [], _ :: _, h, _ => by simp [strLt] at h
  | _ :: _, [], _, h => by simp [strLt] at h
  | a :: as, b :: bs, hab, hba => by
      unfold strLt at hab hba
      by_cases h1 : a.toNat < b.toNat
      · simp [h1] at hab
      · by_cases h2 : b.toNat < a.toNat
        · simp [h2] at hba
        · simp only [h1, h2, if_false] at hab hba
          have hc : a = b := char_eq_of_toNat_eq a b (by omega)
          rw [hc, strLt_total as bs hab hba]

namespace ArtMap

theorem Sorted_nil : Sorted [] := List.Pairwise.nil

theorem keys_cons (p : Str × Str) (m : ArtMap) : keys (p :: m) = p.1 :: keys m := rfl

theorem Sorted_cons (p : Str × Str) (m : ArtMap) :
    Sorted (p :: m) ↔ (∀ k ∈ keys m, strLt p.1 k = true) ∧ Sorted m := by
  unfold Sorted
  rw [keys_cons, List.pairwise_cons]

theorem assign_nil (k v : Str) : assign [] k v = [(k, v)] := rfl

theorem assign_cons_lt (k' v' : Str) (rest : ArtMap) (k v : Str) (h : strLt k k' = true) :
    assign ((k', v') :: rest) k v = (k, v) :: (k', v') :: rest := by
  simp [assign, h]

theorem assign_cons_gt (k' v' : Str) (rest : ArtMap) (k v : Str) (h1 : strLt k k' = false)
    (h2 : strLt k' k = true) :
    assign ((k', v') :: rest) k v = (k', v') :: assign rest k v := by
  simp [assign, h1, h2]

theorem assign_cons_eq (k' v' : Str) (rest : ArtMap) (k v : Str) (h1 : strLt k k' = false)
    (h2 : strLt k' k = false) :
    assign ((k', v') :: rest) k v = (k', v) :: rest := by
  simp [assign, h1, h2]

theorem find_nil (k : Str) : find [] k = none := rfl

theorem find_cons_eq (k' v' : Str) (rest : ArtMap) (k : Str) (h1 : strLt k k' = false)
    (h2 : strLt k' k = false) : find ((k', v') :: rest) k = some v' := by
  simp [find, h1, h2]

theorem find_cons_ne (k' v' : Str) (rest : ArtMap) (k : Str)
    (h : strLt k k' = true ∨ strLt k' k = true) :
    find ((k', v') :: rest) k = find rest k := by
  rcases h with h | h <;> simp [find, h]

/-- Assigning the same value twice is the same as assigning it once. -/
theorem assign_idem : ∀ (m : ArtMap) (k v : Str), (m.assign k v).assign k v = m.assign k v
  | [], k, v => by
      rw [assign_nil, assign_cons_eq _ _ _ _ _ (strLt_irrefl k) (strLt_irrefl k)]
  | (k', v') :: rest, k, v => by
      cases h1 : strLt k k'
      · cases h2 : strLt k' k
        · rw [assign_cons_eq _ _ _ _ _ h1 h2, assign_cons_eq _ _ _ _ _ h1 h2]
        · rw [assign_cons_gt _ _ _ _ _ h1 h2, assign_cons_gt _ _ _ _ _ h1 h2,
            assign_idem rest k v]
      · rw [assign_cons_lt _ _ _ _ _ h1,
          assign_cons_eq _ _ _ _ _ (strLt_irrefl k) (strLt_irrefl k)]

/-- After `m[k] = v`, looking `k` up gives `v`. -/
theorem find_assign_self : ∀ (m : ArtMap) (k v : Str), (m.assign k v).find k = some v
  | [], k, v => by
      rw [assign_nil, find_cons_eq _ _ _ _ (strLt_irrefl k) (strLt_irrefl k)]
  | (k', v') :: rest, k, v => by
      cases h1 : strLt k k'
      · cases h2 : strLt k' k
        · rw [assign_cons_eq _ _ _ _ _ h1 h2, find_cons_eq _ _ _ _ h1 h2]
        · rw [assign_cons_gt _ _ _ _ _ h1 h2, find_cons_ne _ _ _ _ (Or.inr h2)]
          exact find_assign_self rest k v
      · rw [assign_cons_lt _ _ _ _ _ h1,
          find_cons_eq _ _ _ _ (strLt_irrefl k) (strLt_irrefl k)]

theorem keys_assign_subset : ∀ (m : ArtMap) (k v : Str) (x : Str),
    x ∈ keys (m.assign k v) → x = k ∨ x ∈ keys m
  | [], k, v, x, h => by
      rw [assign_nil, keys_cons, List.mem_cons] at h
      rcases h with h | h
      · exact Or.inl h
      · exact Or.inr h
  | (k', v') :: rest, k, v, x, h => by
      cases h1 : strLt k k'
      · cases h2 : strLt k' k
        · rw [assign_cons_eq _ _ _ _ _ h1 h2] at h
          exact Or.inr h
        · rw [assign_cons_gt _ _ _ _ _ h1 h2, keys_cons, List.mem_cons] at h
          rcases h with h | h
          · exact Or.inr (by rw [keys_cons]; exact List.mem_cons.mpr (Or.inl h))
          · rcases keys_assign_subset rest k v x h with h | h
            · exact Or.inl h
            · exact Or.inr (by rw [keys_cons]; exact List.mem_cons_of_mem _ h)
      · rw [assign_cons_lt _ _ _ _ _ h1, keys_cons, List.mem_cons] at h
        exact h

/-- The statement `m[k] = v` keeps the keys strictly ascending. -/
theorem Sorted_assign : ∀ (m : ArtMap) (k v : Str), Sorted m → Sorted (m.assign k v)
  | [], k, v, _ => by
      rw [assign_nil, Sorted_cons]
      exact ⟨fun x hx => by simp [keys] at hx, Sorted_nil⟩
  | (k', v') :: rest, k, v, hm => by
      have hm2 := (Sorted_cons _ _).mp hm
      cases h1 : strLt k k'
      · cases h2 : strLt k' k
        · rw [assign_cons_eq _ _ _ _ _ h1 h2, Sorted_cons]
          exact ⟨hm2.1, hm2.2⟩
        · rw [assign_cons_gt _ _ _ _ _ h1 h2, Sorted_cons]
          refine ⟨?_, Sorted_assign rest k v hm2.2⟩
          intro x hx
          rcases keys_assign_subset rest k v x hx with hx | hx
          · rw [hx]; exact h2
          · exact hm2.1 x hx
      · rw [assign_cons_lt _ _ _ _ _ h1, Sorted_cons]
        refine ⟨?_, hm⟩
        intro x hx
        rw [keys_cons, List.mem_cons] at hx
        rcases hx with hx | hx
        · rw [hx]; exact h1
        · exact strLt_trans _ _ _ h1 (hm2.1 x hx)

end ArtMap

/-- An invariant of the parse loop: the collection is a well-formed map. -/
theorem step_sorted (st : ParseState) (l : Str) (h : st.ascii_arts.Sorted) :
    (step st l).ascii_arts.Sorted := by
  unfold step
  split_ifs <;> first | exact h | exact ArtMap.Sorted_assign _ _ _ h

theorem runLines_sorted : ∀ (L : List Str) (st : ParseState), st.ascii_arts.Sorted →
    (runLines st L).ascii_arts.Sorted
  | [], _, h => h
  | l :: ls, st, h => runLines_sorted ls _ (step_sorted st l h)

/-- Every parsed collection is a well-formed map. -/
theorem parse_sorted (L : List Str) : (parse L).Sorted :=
  runLines_sorted L _ ArtMap.Sorted_nil

theorem Settled_init (arts : ArtMap) : Settled (initState arts) := by
  intro _ h
  exact absurd rfl h

theorem step_settled (st : ParseState) (l : Str) (h : Settled st) : Settled (step st l) := by
  by_cases hs : isStartLine l = true
  · rw [step_start st l hs]
    intro hin
    simp at hin
  · by_cases he : l = ART_END
    · subst he
      rw [step_end]
      intro _ ha hn
      simp only [] at ha hn ⊢
      rw [if_pos ⟨ha, hn⟩]
      exact ArtMap.assign_idem _ _ _
    · have hs2 : isStartLine l = false := by simpa using hs
      cases hin : st.in_art
      · rw [step_outside st l hs2 he hin]
        exact h
      · rw [step_inside st l hs2 he hin]
        intro hin2
        simp [hin] at hin2

theorem runLines_settled : ∀ (L : List Str) (st : ParseState), Settled st →
    Settled (runLines st L)
  | [], _, h => h
  | l :: ls, st, h => runLines_settled ls _ (step_settled st l h)

/-- Outside a block, a line that is not a start line changes nothing at all. -/
theorem step_eq_self (st : ParseState) (x : Str) (hset : Settled st)
    (hin : st.in_art = false) (hx : isStartLine x = false) : step st x = st := by
  by_cases he : x = ART_END
  · subst he
    rw [step_end]
    by_cases hc : st.current_art ≠ [] ∧ st.current_name ≠ []
    · rw [if_pos hc, hset hin hc.1 hc.2]
      cases st
      simp at hin
      simp [hin]
    · rw [if_neg hc]
      cases st
      simp at hin
      simp [hin]
  · exact step_outside st x hx he hin

theorem runLines_eq_self : ∀ (S : List Str) (st : ParseState), Settled st →
    st.in_art = false → (∀ x ∈ S, isStartLine x = false) → runLines st S = st
  | [], _, _, _, _ => rfl
  | x :: xs, st, hset, hin, hS => by
      rw [runLines_cons, step_eq_self st x hset hin (hS x (List.mem_cons_self _ _))]
      exact runLines_eq_self xs st hset hin (fun y hy => hS y (List.mem_cons_of_mem _ hy))

/-! ## How the claims' wording maps to the loop -/

theorem not_isStartLine_iff (l : Str) : isStartLine l = false ↔ ¬ ART_START <+: l := by
  rw [← isStartLine_iff]
  simp

/-- A start line is never the end line. -/
theorem ne_end_of_start (h : Str) (hs : ART_START <+: h) : h ≠ ART_END := by
  intro he
  have h1 := (isStartLine_iff h).mpr hs
  rw [he, isStartLine_ART_END] at h1
  exact Bool.noConfusion h1

theorem interior_of_claim (L : List Str)
    (hint : ∀ l ∈ L, ¬ ART_START <+: l ∧ l ≠ ART_END) :
    ∀ l ∈ L, isStartLine l = false ∧ l ≠ ART_END :=
  fun l hl => ⟨(not_isStartLine_iff l).mpr (hint l hl).1, (hint l hl).2⟩

/-- The name of a header whose first `###` from position 13 on is at `e`. -/
theorem header_name_declared (arts : ArtMap) (h : Str) (e : Nat) (he : 13 ≤ e)
    (hocc : HASHES <+: h.drop e)
    (hfirst : ∀ j, 13 ≤ j → j < e → ¬ HASHES <+: h.drop j) :
    header_name arts h = substr h 13 (e - 13) := by
  have hlen : e ≤ h.length := by
    by_contra hc
    have hnil : h.drop e = [] := List.drop_eq_nil_of_le (by omega)
    rw [hnil] at hocc
    have := List.IsPrefix.length_le hocc
    simp [HASHES] at this
  unfold header_name
  simp only []
  rw [find_eq_some h HASHES 13 e he hlen hocc hfirst]

/-- The name of a header without `###` from position 13 on. -/
theorem header_name_generated (arts : ArtMap) (h : Str)
    (hno : ∀ j, 13 ≤ j → ¬ HASHES <+: h.drop j) :
    header_name arts h = UNNAMED ++ to_string (arts.size + 1) := by
  unfold header_name
  simp only []
  rw [find_eq_none h HASHES 13 hno]

/-- The collection after a prefix `P` followed by one terminated block. -/
theorem parse_block (P : List Str) (h : Str) (L : List Str)
    (hs : ART_START <+: h)
    (hint : ∀ l ∈ L, ¬ ART_START <+: l ∧ l ≠ ART_END) :
    runLines (initState []) (P ++ [h] ++ L ++ [ART_END]) =
      { ascii_arts :=
          if joinLines L ≠ [] ∧ header_name (parse P) h ≠ [] then
            (parse P).assign (header_name (parse P) h) (joinLines L)
          else parse P,
        current_art := joinLines L,
        current_name := header_name (parse P) h,
        in_art := false } := by
  rw [List.append_assoc, List.append_assoc, runLines_append, ← List.append_assoc]
  exact runLines_block _ h L ((isStartLine_iff h).mpr hs) (interior_of_claim L hint)

/-! ## Lookup and the printing loops -/

namespace ArtMap

/-- Two keys that the lookup treats as equivalent are equal strings. -/
theorem find_cons (k' v' : Str) (rest : ArtMap) (k : Str) :
    find ((k', v') :: rest) k = if k = k' then some v' else find rest k := by
  by_cases hk : k = k'
  · rw [if_pos hk, hk, find_cons_eq _ _ _ _ (strLt_irrefl k') (strLt_irrefl k')]
  · rw [if_neg hk]
    apply find_cons_ne
    cases h1 : strLt k k'
    · cases h2 : strLt k' k
      · exact absurd (strLt_total k k' h1 h2) hk
      · exact Or.inr rfl
    · exact Or.inl rfl

/-- The lookup misses exactly the strings that are not a key. -/
theorem find_eq_none_iff : ∀ (m : ArtMap) (k : Str), m.find k = none ↔ k ∉ keys m
  | [], k => by simp [find_nil, keys]
  | (k', v') :: rest, k => by
      rw [find_cons, keys_cons, List.mem_cons]
      by_cases hk : k = k'
      · simp [hk]
      · rw [if_neg hk, find_eq_none_iff rest k]
        simp [hk]

theorem mem_keys_of_mem (m : ArtMap) (k v : Str) (h : (k, v) ∈ m) : k ∈ keys m :=
  List.mem_map.mpr ⟨(k, v), h, rfl⟩

/-- In a well-formed map the lookup of a key returns the body stored with it. -/
theorem find_of_mem : ∀ (m : ArtMap), Sorted m → ∀ (k v : Str), (k, v) ∈ m →
    m.find k = some v
  | [], _, _, _, h => absurd h (List.not_mem_nil _)
  | (k', v') :: rest, hm, k, v, h => by
      have hm2 := (Sorted_cons _ _).mp hm
      rw [find_cons]
      rcases List.mem_cons.mp h with h | h
      · have h1 : k = k' := congrArg Prod.fst h
        have h2 : v = v' := congrArg Prod.snd h
        rw [if_pos h1, h2]
      · have hne : k ≠ k' := by
          intro hk
          have hlt := hm2.1 k (mem_keys_of_mem rest k v h)
          rw [hk] at hlt
          simp only [] at hlt
          rw [strLt_irrefl] at hlt
          exact Bool.noConfusion hlt
        rw [if_neg hne]
        exact find_of_mem rest hm2.2 k v h

/-- The keys of a well-formed map are pairwise different. -/
theorem keys_nodup (m : ArtMap) (hm : Sorted m) : (keys m).Nodup := by
  unfold Sorted at hm
  refine List.Pairwise.imp ?_ hm
  intro a b hab heq
  rw [heq, strLt_irrefl] at hab
  exact Bool.noConfusion hab

end ArtMap

theorem intercalate_cons (sep : Str) (k : Str) (ks : List Str) :
    List.intercalate sep (k :: ks) = k ++ (ks.map (fun x => sep ++ x)).flatten := by
  induction ks generalizing k with
  | nil => simp [List.intercalate]
  | cons k2 ks ih =>
      have := ih k2
      simp only [List.intercalate] at this ⊢
      simp only [List.intersperse, List.flatten, List.map]
      rw [this]
      simp [List.append_assoc]

/-- The loop printing the names, once `first` is false. -/
theorem show_names_loop : ∀ (m : ArtMap) (out : Str),
    m.foldl
      (fun (acc : Str × Bool) art =>
        ((if !acc.2 then acc.1 ++ ", ".toList else acc.1) ++ art.1, false))
      (out, false)
    = (out ++ ((ArtMap.keys m).map (fun x => ", ".toList ++ x)).flatten, false)
  | [], out => by simp [ArtMap.keys]
  | e :: rest, out => by
      rw [List.foldl_cons]
      simp only [Bool.not_false, if_true]
      rw [show_names_loop rest]
      simp [ArtMap.keys, List.append_assoc]

/-- The loop of `show_art_by_name` prints the keys in iteration order, separated by `, `. -/
theorem show_names_eq (m : ArtMap) (out : Str) :
    (show_names m out).1 = out ++ List.intercalate ", ".toList (ArtMap.keys m) := by
  cases m with
  | nil => simp [show_names, ArtMap.keys, List.intercalate]
  | cons e rest =>
      unfold show_names
      rw [List.foldl_cons]
      simp only [Bool.not_true, Bool.false_eq_true, if_false]
      rw [show_names_loop rest, ArtMap.keys_cons, intercalate_cons]
      simp [List.append_assoc]

/-- The loop of `list_arts` prints the entries in iteration order. -/
theorem list_loop : ∀ (m : ArtMap) (out : Str),
    m.foldl (fun out art => out ++ "Art: ".toList ++ art.1 ++ NL ++ art.2 ++ NL) out
    = out ++ (m.map (fun art => "Art: ".toList ++ art.1 ++ NL ++ art.2 ++ NL)).flatten
  | [], out => by simp
  | e :: rest, out => by
      rw [List.foldl_cons, list_loop rest]
      simp [List.append_assoc]

/-! ## Open blocks and well-formed headers -/

/-- No block is open after lines without a start line. -/
theorem in_art_of_no_start : ∀ (P : List Str) (st : ParseState), st.in_art = false →
    (∀ l ∈ P, ¬ ART_START <+: l) → (runLines st P).in_art = false
  | [], _, h, _ => h
  | l :: ls, st, h, hP => by
      rw [runLines_cons]
      apply in_art_of_no_start ls
      · have hl : isStartLine l = false :=
          (not_isStartLine_iff l).mpr (hP l (List.mem_cons_self _ _))
        by_cases he : l = ART_END
        · rw [he, step_end]
        · rw [step_outside st l hl he h]
          exact h
      · exact fun x hx => hP x (List.mem_cons_of_mem _ hx)

/-- No block is open after the lines `P` exactly when `P` has no start line or the last
marker line of `P` is the end marker. -/
theorem in_art_false_iff (P : List Str) :
    (runLines (initState []) P).in_art = false ↔
      ((∀ l ∈ P, ¬ ART_START <+: l) ∨
        ∃ P1 P2, P = P1 ++ [ART_END] ++ P2 ∧ ∀ l ∈ P2, ¬ ART_START <+: l ∧ l ≠ ART_END) := by
  constructor
  · induction P using List.reverseRecOn with
    | nil => intro _; exact Or.inl (fun l hl => absurd hl (List.not_mem_nil l))
    | append_singleton P l ih =>
        intro h
        rw [runLines_append, runLines_cons, runLines_nil] at h
        by_cases hs : isStartLine l = true
        · rw [step_start _ l hs] at h
          exact Bool.noConfusion h
        · have hs2 : isStartLine l = false := by simpa using hs
          by_cases he : l = ART_END
          · exact Or.inr ⟨P, [], by simp [he], fun x hx => absurd hx (List.not_mem_nil x)⟩
          · cases hin : (runLines (initState []) P).in_art
            · rcases ih hin with h1 | ⟨P1, P2, hP, h2⟩
              · left
                intro x hx
                rcases List.mem_append.mp hx with hx | hx
                · exact h1 x hx
                · rw [List.mem_singleton.mp hx]
                  exact (not_isStartLine_iff l).mp hs2
              · right
                refine ⟨P1, P2 ++ [l], by rw [hP]; simp, ?_⟩
                intro x hx
                rcases List.mem_append.mp hx with hx | hx
                · exact h2 x hx
                · rw [List.mem_singleton.mp hx]
                  exact ⟨(not_isStartLine_iff l).mp hs2, he⟩
            · rw [step_inside _ l hs2 he hin] at h
              simp [hin] at h
  · rintro (h | ⟨P1, P2, hP, h2⟩)
    · exact in_art_of_no_start P _ rfl h
    · rw [hP, runLines_append, runLines_append, runLines_cons, runLines_nil]
      apply in_art_of_no_start P2
      · rw [step_end]
      · exact fun x hx => (h2 x hx).1

/-- In a header built from a name without `###` that does not end in `#`, the first
`###` from position 13 on is the closing one. -/
theorem find_closing (n : Str) (hno : ¬ HASHES <:+: n) (hlast : ¬ ['#'] <:+ n) :
    find (ART_START ++ n ++ HASHES) HASHES 13 = some (13 + n.length) := by
  have hlenS : ART_START.length = 13 := rfl
  have hdrop : ∀ k, List.drop (13 + k) (ART_START ++ n ++ HASHES) =
      List.drop k n ++ List.drop (k - n.length) HASHES := by
    intro k
    rw [List.append_assoc, List.drop_append_eq_append_drop,
      List.drop_of_length_le (by rw [hlenS]; omega)]
    rw [hlenS, show 13 + k - 13 = k by omega, List.nil_append, List.drop_append_eq_append_drop]
  apply find_eq_some
  · omega
  · simp [ART_START, HASHES]
    omega
  · rw [hdrop n.length]
    simp
  · intro j hj1 hj2 hp
    obtain ⟨k, rfl⟩ : ∃ k, j = 13 + k := ⟨j - 13, by omega⟩
    have hk : k < n.length := by omega
    rw [hdrop k, show k - n.length = 0 by omega, List.drop_zero] at hp
    have hsuf : List.drop k n <:+ n := List.drop_suffix k n
    have hlen : (List.drop k n).length = n.length - k := List.length_drop k n
    generalize List.drop k n = t at hp hsuf hlen
    match t, hp, hsuf, hlen with
    | [], _, _, hlen => simp at hlen; omega
    | [c], hp, hsuf, _ =>
        have hc : c = '#' := by
          have := List.IsPrefix.head hp (by simp [HASHES])
          simpa [HASHES] using this.symm
        exact hlast (hc ▸ hsuf)
    | [c, d], hp, hsuf, _ =>
        have hd : d = '#' := by
          obtain ⟨r, hr⟩ := hp
          simp [HASHES] at hr
          exact hr.2.1.symm
        apply hlast
        refine List.IsSuffix.trans ?_ hsuf
        rw [hd]
        exact ⟨[c], rfl⟩
    | c :: d :: f :: r, hp, hsuf, _ =>
        apply hno
        have hpre : HASHES <+: c :: d :: f :: r := by
          obtain ⟨q, hq⟩ := hp
          simp [HASHES] at hq
          refine ⟨r, ?_⟩
          simp only [HASHES, String.toList, List.cons_append, List.nil_append,
            ← hq.1, ← hq.2.1, ← hq.2.2.1]
        exact List.IsInfix.trans hpre.isInfix hsuf.isInfix

/-! ## The claims -/

/-- C1: a file made of one well-formed block `[h] ++ L ++ [###ART_END###]`, where `h`
begins with `###ART_START:`, its first `###` from position 13 on is at `e`, the text `n`
between them is non-empty, and `L` is a non-empty list of interior lines, parses (from
the empty collection) to the collection with the single entry `n ↦ body`, the body being
each line of `L` followed by a newline. Read back line by line, the body holds neither
the header nor the end marker. -/
theorem C1_single_block (h : Str) (e : Nat) (L : List Str)
    (hstart : ART_START <+: h)
    (he : 13 ≤ e)
    (hocc : HASHES <+: h.drop e)
    (hfirst : ∀ j, 13 ≤ j → j < e → ¬ HASHES <+: h.drop j)
    (hn : substr h 13 (e - 13) ≠ [])
    (hL : L ≠ [])
    (hint : ∀ l ∈ L, ¬ ART_START <+: l ∧ l ≠ ART_END) :
    parse ([h] ++ L ++ [ART_END]) = [(substr h 13 (e - 13), joinLines L)] ∧
    (parse ([h] ++ L ++ [ART_END])).size = 1 ∧
    ((∀ l ∈ L, '\n' ∉ l) →
      getlines (joinLines L) = L ∧
      ∀ l ∈ getlines (joinLines L), l ≠ h ∧ l ≠ ART_END ∧ ¬ ART_START <+: l) := by
  have hp := parse_block [] h L hstart hint
  have hname : header_name (parse []) h = substr h 13 (e - 13) :=
    header_name_declared _ h e he hocc hfirst
  have hmain : parse ([h] ++ L ++ [ART_END]) = [(substr h 13 (e - 13), joinLines L)] := by
    have hp2 : parse ([h] ++ L ++ [ART_END]) =
        (runLines (initState []) ([] ++ [h] ++ L ++ [ART_END])).ascii_arts := rfl
    rw [hp2, hp, hname]
    simp only []
    rw [if_pos ⟨joinLines_ne_nil L hL, hn⟩]
    rfl
  refine ⟨hmain, ?_, ?_⟩
  · rw [hmain]
    rfl
  · intro hnl
    have hback := getlines_joinLines L hnl
    refine ⟨hback, ?_⟩
    intro l hl
    rw [hback] at hl
    refine ⟨?_, (hint l hl).2, (hint l hl).1⟩
    intro hlh
    rw [hlh] at hl
    exact (hint h hl).1 hstart

theorem C1_single_block_witness :
    parse (["###ART_START:tux###".toList] ++ ["ab".toList, "cd".toList] ++ [ART_END]) =
        [(substr "###ART_START:tux###".toList 13 (16 - 13), joinLines ["ab".toList, "cd".toList])] ∧
    (parse (["###ART_START:tux###".toList] ++ ["ab".toList, "cd".toList] ++ [ART_END])).size = 1 ∧
    ((∀ l ∈ ["ab".toList, "cd".toList], '\n' ∉ l) →
      getlines (joinLines ["ab".toList, "cd".toList]) = ["ab".toList, "cd".toList] ∧
      ∀ l ∈ getlines (joinLines ["ab".toList, "cd".toList]),
        l ≠ "###ART_START:tux###".toList ∧ l ≠ ART_END ∧ ¬ ART_START <+: l) :=
  C1_single_block "###ART_START:tux###".toList 16 ["ab".toList, "cd".toList]
    (by decide) (by decide) (by decide)
    (fun j h1 h2 => by
      have hj : j = 13 ∨ j = 14 ∨ j = 15 := by omega
      rcases hj with hj | hj | hj <;> subst hj <;> decide)
    (by decide) (by decide) (by decide)

/-- C2, as stated, fails: when the later block has no interior lines it is not committed
and the earlier body stays; and two blocks declaring the empty name are never stored. -/
theorem C2_counterexample :
    (header_name [] "###ART_START:a###".toList = "a".toList ∧
      (parse (["###ART_START:a###".toList] ++ ["x".toList] ++ [ART_END] ++
          ["###ART_START:a###".toList] ++ ([] : List Str) ++ [ART_END])).find "a".toList
        ≠ some (joinLines [])) ∧
    (header_name [] "###ART_START:###".toList = [] ∧
      (parse (["###ART_START:###".toList] ++ ["x".toList] ++ [ART_END] ++
          ["###ART_START:###".toList] ++ ["y".toList] ++ [ART_END])).find []
        ≠ some (joinLines ["y".toList])) := by
  decide

/-- C2 (amended): for every non-empty name `n`, headers `h1` and `h2` both declaring `n`
(the text between position 13 and the first `###` from there on), interior lines `L1`
and a non-empty list of interior lines `L2`: in a file that holds the block `h1, L1, end`
and later the block `h2, L2, end`, with any lines `P` before, any lines `M` between, and
after them lines `S` none of which is a start line, `n` maps to the body built from `L2`. -/
theorem C2_later_block_wins (P M S : List Str) (h1 h2 : Str) (e1 e2 : Nat)
    (L1 L2 : List Str) (n : Str)
    (hs1 : ART_START <+: h1) (hs2 : ART_START <+: h2)
    (hf1 : find h1 HASHES 13 = some e1) (hn1 : substr h1 13 (e1 - 13) = n)
    (hf2 : find h2 HASHES 13 = some e2) (hn2 : substr h2 13 (e2 - 13) = n)
    (hint1 : ∀ l ∈ L1, ¬ ART_START <+: l ∧ l ≠ ART_END)
    (hint2 : ∀ l ∈ L2, ¬ ART_START <+: l ∧ l ≠ ART_END)
    (hS : ∀ l ∈ S, ¬ ART_START <+: l)
    (hn : n ≠ []) (hL2 : L2 ≠ []) :
    (parse (P ++ [h1] ++ L1 ++ [ART_END] ++ M ++ [h2] ++ L2 ++ [ART_END] ++ S)).find n
      = some (joinLines L2) := by
  have hname : ∀ arts, header_name arts h2 = n := by
    intro arts
    unfold header_name
    simp only []
    rw [hf2]
    exact hn2
  unfold parse
  rw [runLines_append]
  have hblock := parse_block (P ++ [h1] ++ L1 ++ [ART_END] ++ M) h2 L2 hs2 hint2
  have hset : Settled (runLines (initState [])
      (P ++ [h1] ++ L1 ++ [ART_END] ++ M ++ [h2] ++ L2 ++ [ART_END])) :=
    runLines_settled _ _ (Settled_init [])
  rw [runLines_eq_self S _ hset (by rw [hblock])
    (fun x hx => (not_isStartLine_iff x).mpr (hS x hx))]
  rw [hblock, hname]
  simp only []
  rw [if_pos ⟨joinLines_ne_nil L2 hL2, hn⟩]
  exact ArtMap.find_assign_self _ _ _

theorem C2_later_block_wins_witness :
    (parse (["zz".toList] ++ ["###ART_START:a###".toList] ++ ["x".toList] ++ [ART_END] ++
        ["mid".toList] ++ ["###ART_START:a###b".toList] ++ ["y".toList] ++ [ART_END] ++
        [ART_END, "tail".toList])).find "a".toList
      = some (joinLines ["y".toList]) :=
  C2_later_block_wins ["zz".toList] ["mid".toList] [ART_END, "tail".toList]
    "###ART_START:a###".toList "###ART_START:a###b".toList 14 14
    ["x".toList] ["y".toList] "a".toList
    (by decide) (by decide) (by decide) (by decide) (by decide) (by decide)
    (by decide) (by decide) (by decide) (by decide) (by decide)

/-- C3: for every list of lines `P` and every line `h` beginning with `###ART_START:`,
parsing `P ++ [h, ###ART_END###]` gives the same collection as parsing `P`. -/
theorem C3_empty_block_dropped (P : List Str) (h : Str) (hs : ART_START <+: h) :
    parse (P ++ [h, ART_END]) = parse P := by
  have hb := parse_block P h [] hs (fun l hl => absurd hl (List.not_mem_nil l))
  have hp : parse (P ++ [h, ART_END]) =
      (runLines (initState []) (P ++ [h] ++ [] ++ [ART_END])).ascii_arts := by
    simp [parse]
  rw [hp, hb]
  simp [joinLines]

theorem C3_empty_block_dropped_witness :
    parse ([ "###ART_START:a###".toList, "x".toList, ART_END] ++
      ["###ART_START:a###".toList, ART_END]) =
    parse ["###ART_START:a###".toList, "x".toList, ART_END] :=
  C3_empty_block_dropped _ _ (by decide)

/-- C4: for every list of lines `P`, every header `h` beginning with `###ART_START:` with
no `###` at or after position 13, and every non-empty list `L` of interior lines, parsing
`P ++ [h] ++ L ++ [###ART_END###]` gives the collection of `P` with the key `unnamed_<k>`
set to the body of `L`, `k` being the decimal digits of the size of the collection of
`P` plus one. -/
theorem C4_generated_name (P : List Str) (h : Str) (L : List Str)
    (hs : ART_START <+: h)
    (hno : ∀ j, 13 ≤ j → ¬ HASHES <+: h.drop j)
    (hL : L ≠ [])
    (hint : ∀ l ∈ L, ¬ ART_START <+: l ∧ l ≠ ART_END) :
    parse (P ++ [h] ++ L ++ [ART_END]) =
      (parse P).assign ("unnamed_".toList ++ (Nat.repr ((parse P).size + 1)).toList)
        (joinLines L) ∧
    (parse (P ++ [h] ++ L ++ [ART_END])).find
        ("unnamed_".toList ++ (Nat.repr ((parse P).size + 1)).toList) = some (joinLines L) := by
  have hb := parse_block P h L hs hint
  have hname := header_name_generated (parse P) h hno
  have hne : UNNAMED ++ to_string ((parse P).size + 1) ≠ [] := by
    simp [UNNAMED]
  have hmain : parse (P ++ [h] ++ L ++ [ART_END]) =
      (parse P).assign (UNNAMED ++ to_string ((parse P).size + 1)) (joinLines L) := by
    have hp2 : parse (P ++ [h] ++ L ++ [ART_END]) =
        (runLines (initState []) (P ++ [h] ++ L ++ [ART_END])).ascii_arts := rfl
    rw [hp2, hb, hname]
    simp only []
    rw [if_pos ⟨joinLines_ne_nil L hL, hne⟩]
  have hkey : ("unnamed_".toList ++ (Nat.repr ((parse P).size + 1)).toList : Str) =
      UNNAMED ++ to_string ((parse P).size + 1) := rfl
  rw [hkey]
  refine ⟨hmain, ?_⟩
  rw [hmain]
  exact ArtMap.find_assign_self _ _ _

theorem C4_generated_name_witness :
    parse (["###ART_START:a###".toList, "x".toList, ART_END] ++ ["###ART_START:b".toList] ++
        ["y".toList] ++ [ART_END]) =
      (parse ["###ART_START:a###".toList, "x".toList, ART_END]).assign
        ("unnamed_".toList ++
          (Nat.repr ((parse ["###ART_START:a###".toList, "x".toList, ART_END]).size + 1)).toList)
        (joinLines ["y".toList]) ∧
    (parse (["###ART_START:a###".toList, "x".toList, ART_END] ++ ["###ART_START:b".toList] ++
        ["y".toList] ++ [ART_END])).find
        ("unnamed_".toList ++
          (Nat.repr ((parse ["###ART_START:a###".toList, "x".toList, ART_END]).size + 1)).toList)
      = some (joinLines ["y".toList]) :=
  C4_generated_name ["###ART_START:a###".toList, "x".toList, ART_END]
    "###ART_START:b".toList ["y".toList] (by decide)
    (fun j hj => by
      intro hp
      have hlen := List.IsPrefix.length_le hp
      simp [HASHES] at hlen
      omega)
    (by decide) (by decide)

/-- C5: for every list of lines `P`, every line `h` beginning with `###ART_START:` and
every list `L` of lines none of which is `###ART_END###`, parsing `P ++ [h] ++ L` gives
the same collection as parsing `P`. -/
theorem C5_unterminated_block_discarded (P : List Str) (h : Str) (L : List Str)
    (hs : ART_START <+: h) (hL : ∀ l ∈ L, l ≠ ART_END) :
    parse (P ++ [h] ++ L) = parse P := by
  unfold parse
  rw [List.append_assoc, runLines_append]
  apply runLines_arts_of_no_end
  intro l hl
  rcases List.mem_append.mp hl with hl | hl
  · rw [List.mem_singleton.mp hl]
    exact ne_end_of_start h hs
  · exact hL l hl

theorem C5_unterminated_block_discarded_witness :
    parse (["###ART_START:a###".toList, "x".toList, ART_END] ++ ["###ART_START:b###".toList] ++
      ["y".toList, "###ART_START:c###".toList, "z".toList]) =
    parse ["###ART_START:a###".toList, "x".toList, ART_END] :=
  C5_unterminated_block_discarded _ _ _ (by decide) (by decide)

/-- C6: lines outside any block are ignored. For all lists of lines `P` and `S` and every
line `x` that does not begin with `###ART_START:`, if no block is open after `P`, then
parsing `P ++ [x] ++ S` gives the same collection as parsing `P ++ S`. -/
theorem C6_outside_lines_ignored (P S : List Str) (x : Str)
    (hx : ¬ ART_START <+: x)
    (hclosed : (runLines (initState []) P).in_art = false) :
    parse (P ++ [x] ++ S) = parse (P ++ S) := by
  unfold parse
  rw [List.append_assoc, runLines_append, runLines_append _ P S]
  rw [show [x] ++ S = x :: S from rfl, runLines_cons]
  rw [step_eq_self _ x (runLines_settled P _ (Settled_init [])) hclosed
    ((not_isStartLine_iff x).mpr hx)]

theorem C6_outside_lines_ignored_witness :
    parse (["###ART_START:a###".toList, "x".toList, ART_END] ++ [ART_END] ++
        ["###ART_START:b###".toList, "y".toList, ART_END]) =
      parse (["###ART_START:a###".toList, "x".toList, ART_END] ++
        ["###ART_START:b###".toList, "y".toList, ART_END]) :=
  C6_outside_lines_ignored ["###ART_START:a###".toList, "x".toList, ART_END]
    ["###ART_START:b###".toList, "y".toList, ART_END] ART_END (by decide) (by decide)

/-- C7, as stated, fails: the name `a#` has no `###` in it, but in the header
`###ART_START:a####` the first `###` starts right after `a`, so the block is stored
under `a`. -/
theorem C7_counterexample :
    ("a#".toList ≠ [] ∧ ¬ HASHES <:+: "a#".toList) ∧
    header_name [] (ART_START ++ "a#".toList ++ HASHES) = "a".toList ∧
    parse ([ART_START ++ "a#".toList ++ HASHES] ++ ["x".toList] ++ [ART_END]) =
      [("a".toList, "x\n".toList)] ∧
    (parse ([ART_START ++ "a#".toList ++ HASHES] ++ ["x".toList] ++ [ART_END])).find "a#".toList
      = none := by
  decide

/-- C7 (amended): for every non-empty name `n` that contains no `###` and does not end
in `#`, the header `###ART_START:` ++ n ++ `###` declares exactly the name `n`, and a
terminated block with that header and a non-empty body is stored under the key `n`. -/
theorem C7_name_roundtrip (n : Str) (hne : n ≠ []) (hno : ¬ HASHES <:+: n)
    (hlast : ¬ ['#'] <:+ n)
    (P L : List Str) (hL : L ≠ [])
    (hint : ∀ l ∈ L, ¬ ART_START <+: l ∧ l ≠ ART_END) :
    (∀ arts, header_name arts (ART_START ++ n ++ HASHES) = n) ∧
    parse (P ++ [ART_START ++ n ++ HASHES] ++ L ++ [ART_END]) =
      (parse P).assign n (joinLines L) ∧
    (parse (P ++ [ART_START ++ n ++ HASHES] ++ L ++ [ART_END])).find n
      = some (joinLines L) := by
  have hname : ∀ arts, header_name arts (ART_START ++ n ++ HASHES) = n := by
    intro arts
    unfold header_name
    simp only []
    rw [find_closing n hno hlast]
    simp [substr, ART_START]
  have hs : ART_START <+: ART_START ++ n ++ HASHES := ⟨n ++ HASHES, by simp⟩
  have hb := parse_block P _ L hs hint
  have hmain : parse (P ++ [ART_START ++ n ++ HASHES] ++ L ++ [ART_END]) =
      (parse P).assign n (joinLines L) := by
    have hp2 : parse (P ++ [ART_START ++ n ++ HASHES] ++ L ++ [ART_END]) =
        (runLines (initState []) (P ++ [ART_START ++ n ++ HASHES] ++ L ++ [ART_END])).ascii_arts :=
      rfl
    rw [hp2, hb, hname]
    simp only []
    rw [if_pos ⟨joinLines_ne_nil L hL, hne⟩]
  refine ⟨hname, hmain, ?_⟩
  rw [hmain]
  exact ArtMap.find_assign_self _ _ _

theorem C7_name_roundtrip_witness :
    (∀ arts, header_name arts (ART_START ++ "a#b".toList ++ HASHES) = "a#b".toList) ∧
    parse (["q".toList] ++ [ART_START ++ "a#b".toList ++ HASHES] ++ ["x".toList] ++ [ART_END]) =
      (parse ["q".toList]).assign "a#b".toList (joinLines ["x".toList]) ∧
    (parse (["q".toList] ++ [ART_START ++ "a#b".toList ++ HASHES] ++ ["x".toList] ++
        [ART_END])).find "a#b".toList
      = some (joinLines ["x".toList]) :=
  C7_name_roundtrip "a#b".toList (by decide) (by decide) (by decide)
    ["q".toList] ["x".toList] (by decide) (by decide)

/-- C8: when the configuration file does not exist and can be written, constructing the
configuration (with enough depth for the two nested calls) writes the default file once
and leaves a collection with the single entry `tux`, whose body is the seven default art
lines each followed by a newline; `main` with `--config` (or `-c`) then prints the path
and a total of 1 and returns 0. -/
theorem C8_default_config (fuel : Nat) (home prog : Str) (k : Nat) :
    RASCIIConfig.new (fuel + 3) home { file := none, writable := true, writes := k } =
      some ({ file := some default_config, writable := true, writes := k + 1 },
        { config_dir := home ++ "/.config/atyper".toList,
          config_file := home ++ "/.config/atyper".toList ++ "/atyper.conf".toList,
          ascii_arts :=
            [("tux".toList,
              joinLines ["    .--.".toList, "   |o_o |".toList, "   |:_/ |".toList,
                "  //   \\ \\".toList, " (|     | )".toList, "/'\\_   _/`\\".toList,
                "\\___)=(___/".toList])] }) ∧
    parse (getlines default_config) =
      [("tux".toList,
        joinLines ["    .--.".toList, "   |o_o |".toList, "   |:_/ |".toList,
          "  //   \\ \\".toList, " (|     | )".toList, "/'\\_   _/`\\".toList,
          "\\___)=(___/".toList])] ∧
    main (fuel + 3) home { file := none, writable := true, writes := k }
        [prog, "--config".toList] =
      some ({ file := some default_config, writable := true, writes := k + 1 },
        "Config file: ".toList ++ home ++ "/.config/atyper/atyper.conf\n".toList ++
          "Total arts: 1\n".toList, 0) ∧
    main (fuel + 3) home { file := none, writable := true, writes := k }
        [prog, "-c".toList] =
      some ({ file := some default_config, writable := true, writes := k + 1 },
        "Config file: ".toList ++ home ++ "/.config/atyper/atyper.conf\n".toList ++
          "Total arts: 1\n".toList, 0) := by
  have hparse : parse (getlines default_config) =
      [("tux".toList,
        joinLines ["    .--.".toList, "   |o_o |".toList, "   |:_/ |".toList,
          "  //   \\ \\".toList, " (|     | )".toList, "/'\\_   _/`\\".toList,
          "\\___)=(___/".toList])] := by
    decide
  have hnew : RASCIIConfig.new (fuel + 3) home { file := none, writable := true, writes := k } =
      some ({ file := some default_config, writable := true, writes := k + 1 },
        { config_dir := home ++ "/.config/atyper".toList,
          config_file := home ++ "/.config/atyper".toList ++ "/atyper.conf".toList,
          ascii_arts :=
            [("tux".toList,
              joinLines ["    .--.".toList, "   |o_o |".toList, "   |:_/ |".toList,
                "  //   \\ \\".toList, " (|     | )".toList, "/'\\_   _/`\\".toList,
                "\\___)=(___/".toList])] }) := by
    unfold RASCIIConfig.new
    simp only []
    rw [load_config, create_default_config, load_config]
    simp only [write_default_config, if_true]
    rw [← hparse]
    rfl
  refine ⟨hnew, hparse, ?_, ?_⟩
  · unfold main
    rw [hnew]
    simp only [dispatch]
    rw [if_neg (by decide), if_neg (by decide), if_pos (by decide)]
    simp [ArtMap.size, NL, to_string, List.append_assoc]
    rfl
  · unfold main
    rw [hnew]
    simp only [dispatch]
    rw [if_neg (by decide), if_neg (by decide), if_pos (by decide)]
    simp [ArtMap.size, NL, to_string, List.append_assoc]
    rfl

/-- C9: for every collection (a well-formed map) and every requested name,
`show_art_by_name` takes the not-found path exactly when the name is not a key (exact
string equality); on a hit it prints the stored body and one newline; on a miss it prints
the requested name and then the keys of the collection, each once, in ascending order,
separated by `, `. -/
theorem C9_show_art_by_name (m : ArtMap) (hm : m.Sorted) (name : Str) :
    (m.find name = none ↔ ∀ e ∈ m, e.1 ≠ name) ∧
    (∀ body, (name, body) ∈ m → show_art_by_name m name = body ++ "\n".toList) ∧
    ((∀ e ∈ m, e.1 ≠ name) →
      show_art_by_name m name =
        "ASCII art '".toList ++ name ++ "' not found!\n".toList ++ "Available arts: ".toList ++
          List.intercalate ", ".toList (m.map Prod.fst) ++ "\n".toList) ∧
    (m.map Prod.fst).Pairwise (fun a b => strLt a b = true) ∧
    (m.map Prod.fst).Nodup := by
  have hiff : m.find name = none ↔ ∀ e ∈ m, e.1 ≠ name := by
    rw [ArtMap.find_eq_none_iff]
    constructor
    · intro h e he heq
      exact h (List.mem_map.mpr ⟨e, he, heq⟩)
    · intro h hmem
      obtain ⟨e, he, heq⟩ := List.mem_map.mp hmem
      exact h e he heq
  refine ⟨hiff, ?_, ?_, hm, ArtMap.keys_nodup m hm⟩
  · intro body hb
    unfold show_art_by_name
    rw [ArtMap.find_of_mem m hm name body hb]
    rfl
  · intro hmiss
    unfold show_art_by_name
    rw [hiff.mpr hmiss]
    simp only []
    rw [show_names_eq]
    rfl

theorem C9_show_art_by_name_witness :
    (ArtMap.find [("a".toList, "x\n".toList), ("b".toList, "y\n".toList)] "B".toList = none ↔
      ∀ e ∈ [("a".toList, "x\n".toList), ("b".toList, "y\n".toList)], e.1 ≠ "B".toList) ∧
    (∀ body, ("B".toList, body) ∈ [("a".toList, "x\n".toList), ("b".toList, "y\n".toList)] →
      show_art_by_name [("a".toList, "x\n".toList), ("b".toList, "y\n".toList)] "B".toList
        = body ++ "\n".toList) ∧
    ((∀ e ∈ [("a".toList, "x\n".toList), ("b".toList, "y\n".toList)], e.1 ≠ "B".toList) →
      show_art_by_name [("a".toList, "x\n".toList), ("b".toList, "y\n".toList)] "B".toList =
        "ASCII art '".toList ++ "B".toList ++ "' not found!\n".toList ++
          "Available arts: ".toList ++
          List.intercalate ", ".toList
            ([("a".toList, "x\n".toList), ("b".toList, "y\n".toList)].map Prod.fst) ++
          "\n".toList) ∧
    ([("a".toList, "x\n".toList), ("b".toList, "y\n".toList)].map Prod.fst).Pairwise
      (fun a b => strLt a b = true) ∧
    ([("a".toList, "x\n".toList), ("b".toList, "y\n".toList)].map Prod.fst).Nodup :=
  C9_show_art_by_name [("a".toList, "x\n".toList), ("b".toList, "y\n".toList)]
    (by decide) "B".toList

/-- C10: for every collection (a well-formed map) and configuration path, `list_arts`
on an empty collection reports that there are no arts and prints the path, and nothing
else; on a non-empty collection it prints a total equal to the number of entries and
then, for every entry once and in ascending key order, the name followed by the body. -/
theorem C10_list_arts (m : ArtMap) (hm : m.Sorted) (path : Str) :
    (m = [] →
      list_arts m path =
        "No ASCII arts found.\n".toList ++ "Add your arts to: ".toList ++ path ++ "\n".toList) ∧
    (m ≠ [] →
      list_arts m path =
        "Total ASCII arts: ".toList ++ (Nat.repr m.length).toList ++ "\n\n".toList ++
          (m.map (fun e => "Art: ".toList ++ e.1 ++ "\n".toList ++ e.2 ++ "\n".toList)).flatten) ∧
    (m.map Prod.fst).Pairwise (fun a b => strLt a b = true) ∧
    (m.map Prod.fst).Nodup := by
  refine ⟨?_, ?_, hm, ArtMap.keys_nodup m hm⟩
  · intro he
    rw [he]
    rfl
  · intro hne
    unfold list_arts
    have hemp : m.isEmpty = false := by
      cases m with
      | nil => exact absurd rfl hne
      | cons _ _ => rfl
    rw [hemp]
    simp only [Bool.false_eq_true, if_false]
    rw [list_loop]
    rfl

theorem C10_list_arts_witness :
    (([("a".toList, "x\n".toList), ("b".toList, "y\n".toList)] : ArtMap) = [] →
      list_arts [("a".toList, "x\n".toList), ("b".toList, "y\n".toList)] "/p".toList =
        "No ASCII arts found.\n".toList ++ "Add your arts to: ".toList ++ "/p".toList ++
          "\n".toList) ∧
    (([("a".toList, "x\n".toList), ("b".toList, "y\n".toList)] : ArtMap) ≠ [] →
      list_arts [("a".toList, "x\n".toList), ("b".toList, "y\n".toList)] "/p".toList =
        "Total ASCII arts: ".toList ++
          (Nat.repr ([("a".toList, "x\n".toList), ("b".toList, "y\n".toList)] : ArtMap).length).toList
          ++ "\n\n".toList ++
          (([("a".toList, "x\n".toList), ("b".toList, "y\n".toList)] : ArtMap).map
            (fun e => "Art: ".toList ++ e.1 ++ "\n".toList ++ e.2 ++ "\n".toList)).flatten) ∧
    (([("a".toList, "x\n".toList), ("b".toList, "y\n".toList)] : ArtMap).map Prod.fst).Pairwise
      (fun a b => strLt a b = true) ∧
    (([("a".toList, "x\n".toList), ("b".toList, "y\n".toList)] : ArtMap).map Prod.fst).Nodup :=
  C10_list_arts [("a".toList, "x\n".toList), ("b".toList, "y\n".toList)]
    (by decide) "/p".toList

/-! ## More on `find` and `to_string` -/

/-- What the search loop returns is the least offset at which the pattern occurs. -/
theorem findFrom_sound (pat : Str) : ∀ (s : Str) (i e : Nat), findFrom pat s i = some e →
    ∃ k, e = i + k ∧ k ≤ s.length ∧ pat <+: s.drop k ∧ ∀ j, j < k → ¬ pat <+: s.drop j
  | [], i, e, h => by
      unfold findFrom at h
      split at h
      · rename_i hb
        refine ⟨0, ?_, Nat.le_refl _, List.isPrefixOf_iff_prefix.mp hb, ?_⟩
        · simp at h; omega
        · intro j hj; omega
      · simp at h
  | c :: cs, i, e, h => by
      unfold findFrom at h
      split at h
      · rename_i hb
        refine ⟨0, ?_, Nat.zero_le _, List.isPrefixOf_iff_prefix.mp hb, ?_⟩
        · simp at h; omega
        · intro j hj; omega
      · rename_i hb
        obtain ⟨k, hk1, hk2, hk3, hk4⟩ := findFrom_sound pat cs (i + 1) e h
        refine ⟨k + 1, by omega, by simpa using hk2, by simpa using hk3, ?_⟩
        intro j hj
        cases j with
        | zero =>
            intro hp
            exact hb (List.isPrefixOf_iff_prefix.mpr (by simpa using hp))
        | succ j' =>
            simpa using hk4 j' (by omega)

/-- The index returned by `s.find(pat, pos)` is the least one from `pos` on at which
`pat` occurs. -/
theorem find_sound (s pat : Str) (pos e : Nat) (h : find s pat pos = some e) :
    pos ≤ e ∧ e ≤ s.length ∧ pat <+: s.drop e ∧
      ∀ j, pos ≤ j → j < e → ¬ pat <+: s.drop j := by
  unfold find at h
  split at h
  · rename_i hps
    obtain ⟨k, hk1, hk2, hk3, hk4⟩ := findFrom_sound pat _ pos e h
    rw [List.length_drop] at hk2
    rw [List.drop_drop] at hk3
    subst hk1
    refine ⟨by omega, by omega, hk3, ?_⟩
    intro j hj1 hj2
    have := hk4 (j - pos) (by omega)
    rw [List.drop_drop, show pos + (j - pos) = j by omega] at this
    exact this
  · exact Option.noConfusion h

theorem digitChar_value (m : Nat) (hm : m < 10) : (Nat.digitChar m).toNat - 48 = m := by
  interval_cases m <;> rfl

theorem digitChar_ne_hash (m : Nat) (hm : m < 10) : Nat.digitChar m ≠ '#' := by
  interval_cases m <;> decide

theorem digitsValue_toDigitsCore : ∀ (fuel n : Nat) (ds : Str), n < fuel →
    digitsValue 0 (Nat.toDigitsCore 10 fuel n ds) = digitsValue n ds
  | 0, _, _, h => absurd h (Nat.not_lt_zero _)
  | fuel + 1, n, ds, h => by
      unfold Nat.toDigitsCore
      simp only []
      have hd : (Nat.digitChar (n % 10)).toNat - 48 = n % 10 :=
        digitChar_value _ (Nat.mod_lt _ (by decide))
      split
      · rename_i h0
        unfold digitsValue
        rw [List.foldl_cons, hd]
        congr 1
        omega
      · rename_i h0
        rw [digitsValue_toDigitsCore fuel (n / 10) _ (by omega)]
        unfold digitsValue
        rw [List.foldl_cons, hd]
        congr 1
        omega

/-- Reading back the decimal digits of `n` gives `n`. -/
theorem digitsValue_to_string (n : Nat) : digitsValue 0 (to_string n) = n :=
  digitsValue_toDigitsCore (n + 1) n [] (Nat.lt_succ_self n)

/-- Different numbers have different decimal renderings. -/
theorem to_string_inj (a b : Nat) (h : to_string a = to_string b) : a = b := by
  rw [← digitsValue_to_string a, ← digitsValue_to_string b, h]

theorem toDigitsCore_no_hash : ∀ (fuel n : Nat) (ds : Str), '#' ∉ ds →
    '#' ∉ Nat.toDigitsCore 10 fuel n ds
  | 0, _, _, h => by
      unfold Nat.toDigitsCore
      exact h
  | fuel + 1, n, ds, h => by
      have hd : '#' ∉ Nat.digitChar (n % 10) :: ds := by
        intro hm
        rcases List.mem_cons.mp hm with hm | hm
        · exact digitChar_ne_hash _ (Nat.mod_lt _ (by decide)) hm.symm
        · exact h hm
      unfold Nat.toDigitsCore
      simp only []
      split
      · exact hd
      · exact toDigitsCore_no_hash fuel (n / 10) _ hd

/-- A generated name has no `#` in it. -/
theorem generated_no_hash (k : Nat) : '#' ∉ UNNAMED ++ to_string k := by
  intro h
  rcases List.mem_append.mp h with h | h
  · revert h
    decide
  · exact toDigitsCore_no_hash _ _ [] (List.not_mem_nil _) h

/-- A string that contains `###` contains the character `#`. -/
theorem hash_mem_of_contains (s : Str) (h : HASHES <:+: s) : '#' ∈ s := by
  obtain ⟨a, b, hab⟩ := h
  rw [← hab]
  simp [HASHES]

/-- The text between position 13 and the first `###` from there on contains no `###`. -/
theorem declared_no_hashes (h : Str) (e : Nat) (hf : find h HASHES 13 = some e) :
    ¬ HASHES <:+: substr h 13 (e - 13) := by
  obtain ⟨h1, h2, _, h4⟩ := find_sound h HASHES 13 e hf
  intro hin
  obtain ⟨a, b, hab⟩ := hin
  -- the occurrence starts at offset `a.length` of the name
  have hlen : (substr h 13 (e - 13)).length = e - 13 := by
    unfold substr
    rw [List.length_take, List.length_drop]
    omega
  have hlen2 : a.length + 3 + b.length = e - 13 := by
    rw [← hlen, ← hab]
    simp [HASHES]
    omega
  apply h4 (13 + a.length) (by omega) (by omega)
  have hpre : substr h 13 (e - 13) <+: h.drop 13 := List.take_prefix _ _
  obtain ⟨r, hr⟩ := hpre
  rw [← List.drop_drop, ← hr, ← hab]
  refine ⟨b ++ r, ?_⟩
  simp [List.append_assoc]

theorem getlinesAux_no_newline : ∀ (content cur : Str), '\n' ∉ cur →
    ∀ l ∈ getlinesAux content cur, '\n' ∉ l
  | [], cur, hcur, l, hl => by
      unfold getlinesAux at hl
      split at hl
      · exact absurd hl (List.not_mem_nil _)
      · rw [List.mem_singleton.mp hl]
        exact hcur
  | c :: cs, cur, hcur, l, hl => by
      unfold getlinesAux at hl
      split at hl
      · rcases List.mem_cons.mp hl with hl | hl
        · rw [hl]
          exact hcur
        · exact getlinesAux_no_newline cs [] (List.not_mem_nil _) l hl
      · rename_i hc
        apply getlinesAux_no_newline cs (cur ++ [c]) ?_ l hl
        intro hm
        rcases List.mem_append.mp hm with hm | hm
        · exact hcur hm
        · exact hc (List.mem_singleton.mp hm).symm

/-- The lines that `std::getline` returns have no newline in them. -/
theorem getlines_no_newline (content : Str) : ∀ l ∈ getlines content, '\n' ∉ l :=
  getlinesAux_no_newline content [] (List.not_mem_nil _)

/-! ## Sizes, and the bound on generated names -/

namespace ArtMap

/-- The statement `m[k] = v` adds one entry, or `k` was a key and the size stays. -/
theorem size_assign_cases : ∀ (m : ArtMap) (k v : Str),
    size (m.assign k v) = size m + 1 ∨ (size (m.assign k v) = size m ∧ k ∈ keys m)
  | [], k, v => Or.inl rfl
  | (k', v') :: rest, k, v => by
      cases h1 : strLt k k'
      · cases h2 : strLt k' k
        · rw [assign_cons_eq _ _ _ _ _ h1 h2]
          right
          refine ⟨rfl, ?_⟩
          rw [strLt_total k k' h1 h2, keys_cons]
          exact List.mem_cons_self _ _
        · rw [assign_cons_gt _ _ _ _ _ h1 h2]
          rcases size_assign_cases rest k v with h | ⟨h, hk⟩
          · left
            unfold size at h ⊢
            simp only [List.length_cons, h]
          · right
            refine ⟨?_, ?_⟩
            · unfold size at h ⊢
              simp only [List.length_cons, h]
            · rw [keys_cons]
              exact List.mem_cons_of_mem _ hk
      · rw [assign_cons_lt _ _ _ _ _ h1]
        exact Or.inl rfl

theorem size_le_assign (m : ArtMap) (k v : Str) : size m ≤ size (m.assign k v) := by
  rcases size_assign_cases m k v with h | ⟨h, _⟩ <;> omega

/-- Assigning to a string that is not a key adds exactly one entry. -/
theorem size_assign_of_not_mem : ∀ (m : ArtMap) (k v : Str), k ∉ keys m →
    size (m.assign k v) = size m + 1
  | [], k, v, _ => rfl
  | (k', v') :: rest, k, v, hk => by
      rw [keys_cons, List.mem_cons, not_or] at hk
      cases h1 : strLt k k'
      · cases h2 : strLt k' k
        · exact absurd (strLt_total k k' h1 h2) hk.1
        · rw [assign_cons_gt _ _ _ _ _ h1 h2]
          have := size_assign_of_not_mem rest k v hk.2
          unfold size at this ⊢
          simp only [List.length_cons, this]
      · rw [assign_cons_lt _ _ _ _ _ h1]
        rfl

/-- The statement `m[k] = v` leaves the lookup of every other string as it was. -/
theorem find_assign_ne : ∀ (m : ArtMap) (k v x : Str), x ≠ k →
    (m.assign k v).find x = m.find x
  | [], k, v, x, hx => by
      rw [assign_nil, find_cons, if_neg hx]
  | (k', v') :: rest, k, v, x, hx => by
      cases h1 : strLt k k'
      · cases h2 : strLt k' k
        · rw [assign_cons_eq _ _ _ _ _ h1 h2, find_cons, find_cons]
          have hkk : k = k' := strLt_total k k' h1 h2
          rw [if_neg (hkk ▸ hx), if_neg (hkk ▸ hx)]
        · rw [assign_cons_gt _ _ _ _ _ h1 h2, find_cons, find_cons,
            find_assign_ne rest k v x hx]
      · rw [assign_cons_lt _ _ _ _ _ h1, find_cons, if_neg hx]

/-- An entry after `m[k] = v` is the assigned one or was there before. -/
theorem mem_assign : ∀ (m : ArtMap) (k v : Str) (e : Str × Str),
    e ∈ m.assign k v → e = (k, v) ∨ e ∈ m
  | [], k, v, e, h => by
      rw [assign_nil, List.mem_singleton] at h
      exact Or.inl h
  | (k', v') :: rest, k, v, e, h => by
      cases h1 : strLt k k'
      · cases h2 : strLt k' k
        · rw [assign_cons_eq _ _ _ _ _ h1 h2, List.mem_cons] at h
          rcases h with h | h
          · left
            rw [h, strLt_total k k' h1 h2]
          · exact Or.inr (List.mem_cons_of_mem _ h)
        · rw [assign_cons_gt _ _ _ _ _ h1 h2, List.mem_cons] at h
          rcases h with h | h
          · exact Or.inr (by rw [h]; exact List.mem_cons_self _ _)
          · rcases mem_assign rest k v e h with h | h
            · exact Or.inl h
            · exact Or.inr (List.mem_cons_of_mem _ h)
      · rw [assign_cons_lt _ _ _ _ _ h1, List.mem_cons] at h
        exact h

end ArtMap

theorem generatedBound_init : GeneratedBound (initState []) := by
  refine ⟨fun key hk => absurd hk (List.not_mem_nil _), ?_⟩
  intro j hj
  have : ([] : Str) = UNNAMED ++ to_string j := hj
  simp [UNNAMED] at this

/-- The bound is kept by an iteration on a line that does not declare a name of the
form `unnamed_<number>`. -/
theorem step_generatedBound (st : ParseState) (l : Str)
    (hdecl : isStartLine l = true → ∀ e, find l HASHES 13 = some e →
      ∀ k, substr l 13 (e - 13) ≠ UNNAMED ++ to_string k)
    (h : GeneratedBound st) : GeneratedBound (step st l) := by
  obtain ⟨h1, h2⟩ := h
  by_cases hs : isStartLine l = true
  · rw [step_start st l hs]
    refine ⟨h1, ?_⟩
    intro j hj
    simp only [] at hj ⊢
    unfold header_name at hj
    simp only [] at hj
    cases hf : find l HASHES 13 with
    | some e =>
        rw [hf] at hj
        exact absurd hj (hdecl hs e hf j)
    | none =>
        rw [hf] at hj
        have := to_string_inj _ _ (List.append_cancel_left hj)
        omega
  · have hs2 : isStartLine l = false := by simpa using hs
    by_cases he : l = ART_END
    · subst he
      rw [step_end]
      by_cases hc : st.current_art ≠ [] ∧ st.current_name ≠ []
      · rw [if_pos hc]
        have hsz := ArtMap.size_assign_cases st.ascii_arts st.current_name st.current_art
        refine ⟨?_, ?_⟩
        · intro key hk j hj
          simp only [] at hk ⊢
          rcases ArtMap.keys_assign_subset _ _ _ key hk with hk | hk
          · rcases hsz with hsz | ⟨hsz, hmem⟩
            · have := h2 j (hk ▸ hj)
              omega
            · have := h1 _ hmem j (hk ▸ hj)
              omega
          · have := h1 key hk j hj
            have := ArtMap.size_le_assign st.ascii_arts st.current_name st.current_art
            omega
        · intro j hj
          simp only [] at hj ⊢
          have := h2 j hj
          have := ArtMap.size_le_assign st.ascii_arts st.current_name st.current_art
          omega
      · rw [if_neg hc]
        exact ⟨h1, h2⟩
    · cases hin : st.in_art
      · rw [step_outside st l hs2 he hin]
        exact ⟨h1, h2⟩
      · rw [step_inside st l hs2 he hin]
        exact ⟨h1, h2⟩

theorem runLines_generatedBound : ∀ (P : List Str) (st : ParseState),
    (∀ l ∈ P, isStartLine l = true → ∀ e, find l HASHES 13 = some e →
      ∀ k, substr l 13 (e - 13) ≠ UNNAMED ++ to_string k) →
    GeneratedBound st → GeneratedBound (runLines st P)
  | [], _, _, h => h
  | l :: ls, st, hP, h =>
      runLines_generatedBound ls _ (fun x hx => hP x (List.mem_cons_of_mem _ hx))
        (step_generatedBound st l (hP l (List.mem_cons_self _ _)) h)

/-! ## The shape of the stored entries -/

theorem joinLines_append (A B : List Str) : joinLines (A ++ B) = joinLines A ++ joinLines B := by
  induction A with
  | nil => rfl
  | cons a as ih => simp [joinLines, ih, List.append_assoc]

/-- A non-empty body built by the loop ends with a newline. -/
theorem joinLines_getLast : ∀ (Ls : List Str), Ls ≠ [] →
    (joinLines Ls).getLast? = some '\n'
  | [], h => absurd rfl h
  | [l], _ => by
      simp [joinLines, NL]
  | l :: l2 :: ls, _ => by
      have ih := joinLines_getLast (l2 :: ls) (List.cons_ne_nil _ _)
      have hne : joinLines (l2 :: ls) ≠ [] := joinLines_ne_nil _ (List.cons_ne_nil _ _)
      rw [joinLines, List.getLast?_append_of_ne_nil _ hne]
      exact ih

theorem header_name_no_hashes (arts : ArtMap) (l : Str) :
    ¬ HASHES <:+: header_name arts l := by
  unfold header_name
  simp only []
  cases hf : find l HASHES 13 with
  | some e => exact declared_no_hashes l e hf
  | none => exact fun h => generated_no_hash _ (hash_mem_of_contains _ h)

theorem wellFormed_init (lines : List Str) : WellFormed lines (initState []) := by
  refine ⟨fun e he => absurd he (List.not_mem_nil _), ?_, ⟨[], rfl, fun l hl => absurd hl (List.not_mem_nil _)⟩⟩
  intro h
  have := hash_mem_of_contains _ h
  exact absurd this (List.not_mem_nil _)

theorem step_wellFormed (lines : List Str) (st : ParseState) (l : Str) (hl : l ∈ lines)
    (h : WellFormed lines st) : WellFormed lines (step st l) := by
  obtain ⟨h1, h2, h3⟩ := h
  by_cases hs : isStartLine l = true
  · rw [step_start st l hs]
    exact ⟨h1, header_name_no_hashes _ _,
      ⟨[], rfl, fun x hx => absurd hx (List.not_mem_nil _)⟩⟩
  · have hs2 : isStartLine l = false := by simpa using hs
    by_cases he : l = ART_END
    · subst he
      rw [step_end]
      refine ⟨?_, h2, h3⟩
      by_cases hc : st.current_art ≠ [] ∧ st.current_name ≠ []
      · rw [if_pos hc]
        intro e hmem
        simp only [] at hmem
        rcases ArtMap.mem_assign _ _ _ e hmem with hmem | hmem
        · rw [hmem]
          exact ⟨hc.2, h2, hc.1, h3⟩
        · exact h1 e hmem
      · rw [if_neg hc]
        exact h1
    · cases hin : st.in_art
      · rw [step_outside st l hs2 he hin]
        exact ⟨h1, h2, h3⟩
      · rw [step_inside st l hs2 he hin]
        refine ⟨h1, h2, ?_⟩
        obtain ⟨Ls, hLs, hall⟩ := h3
        refine ⟨Ls ++ [l], ?_, ?_⟩
        · simp only []
          rw [joinLines_append, hLs]
          simp [joinLines, List.append_assoc]
        · intro x hx
          rcases List.mem_append.mp hx with hx | hx
          · exact hall x hx
          · rw [List.mem_singleton.mp hx]
            exact ⟨hl, hs2, he⟩

theorem runLines_wellFormed (lines : List Str) : ∀ (P : List Str) (st : ParseState),
    (∀ l ∈ P, l ∈ lines) → WellFormed lines st → WellFormed lines (runLines st P)
  | [], _, _, h => h
  | l :: ls, st, hP, h =>
      runLines_wellFormed lines ls _ (fun x hx => hP x (List.mem_cons_of_mem _ hx))
        (step_wellFormed lines st l (hP l (List.mem_cons_self _ _)) h)

/-! ## The loop and the two-state machine -/

theorem simulates_init : Simulates (initState []) (([] : ArtMap), BlockState.outside) :=
  ⟨rfl, fun h => Bool.noConfusion h, fun _ => ⟨rfl, Settled_init []⟩⟩

/-- One iteration of the loop and one transition of the machine keep the relation. -/
theorem simulates_step (st : ParseState) (s : ArtMap × BlockState) (line : Str)
    (hsim : Simulates st s) : Simulates (step st line) (machineStep s line) := by
  obtain ⟨harts, hin, hout⟩ := hsim
  by_cases hs : isStartLine line = true
  · rw [step_start st line hs]
    unfold machineStep
    rw [if_pos hs]
    refine ⟨harts, ?_, fun h => Bool.noConfusion h⟩
    intro _
    simp only []
    rw [harts]
  · have hs2 : isStartLine line = false := by simpa using hs
    by_cases he : line = ART_END
    · subst he
      unfold machineStep
      rw [if_neg hs, if_pos rfl]
      cases hia : st.in_art
      · obtain ⟨hso, hset⟩ := hout hia
        rw [step_eq_self st ART_END hset hia hs2, hso]
        exact ⟨harts, fun h => absurd h (by rw [hia]; exact Bool.noConfusion),
          fun _ => ⟨hso, hset⟩⟩
      · rw [hin hia, step_end]
        refine ⟨?_, fun h => Bool.noConfusion h, fun _ => ⟨rfl, ?_⟩⟩
        · simp only []
          rw [harts]
          by_cases hc : st.current_art ≠ [] ∧ st.current_name ≠ []
          · rw [if_pos hc, if_pos ⟨hc.2, hc.1⟩]
          · rw [if_neg hc, if_neg (fun h => hc ⟨h.2, h.1⟩)]
        · have := step_settled st ART_END (fun h => absurd h (by rw [hia]; exact Bool.noConfusion))
          rw [step_end] at this
          exact this
    · unfold machineStep
      rw [if_neg hs, if_neg he]
      cases hia : st.in_art
      · obtain ⟨hso, hset⟩ := hout hia
        rw [step_outside st line hs2 he hia, hso]
        exact ⟨harts, fun h => absurd h (by rw [hia]; exact Bool.noConfusion),
          fun _ => ⟨hso, hset⟩⟩
      · rw [hin hia, step_inside st line hs2 he hia]
        refine ⟨harts, fun _ => rfl, ?_⟩
        intro h
        simp only [] at h
        rw [hia] at h
        exact Bool.noConfusion h

theorem simulates_run : ∀ (lines : List Str) (st : ParseState) (s : ArtMap × BlockState),
    Simulates st s → Simulates (runLines st lines) (lines.foldl machineStep s)
  | [], _, _, h => h
  | l :: ls, st, s, h => simulates_run ls _ _ (simulates_step st s l h)

/-- A start line makes the loop forget everything but the collection. -/
theorem step_start_of_arts_eq (st1 st2 : ParseState) (h : Str) (hs : isStartLine h = true)
    (harts : st1.ascii_arts = st2.ascii_arts) : step st1 h = step st2 h := by
  rw [step_start st1 h hs, step_start st2 h hs, harts]

/-! ## The constructor -/

/-- With the configuration file present, or absent but writable, the constructor
returns within three nested calls. -/
theorem new_returns (fuel : Nat) (home : Str) (w : World)
    (hw : w.file ≠ none ∨ w.writable = true) :
    ∃ w' config, RASCIIConfig.new (fuel + 3) home w = some (w', config) := by
  unfold RASCIIConfig.new
  simp only []
  cases hf : w.file with
  | some content =>
      rw [load_config, hf]
      exact ⟨_, _, rfl⟩
  | none =>
      have hwr : w.writable = true := by
        rcases hw with h | h
        · exact absurd hf h
        · exact h
      rw [load_config, hf]
      simp only []
      rw [create_default_config, load_config]
      simp only [write_default_config, hwr, if_true]
      exact ⟨_, _, rfl⟩

/-! ## The claims, continued -/

/-- C11: for every argument vector the text printed by `main` depends only on the first
argument (the element after the program name), if there is one: none gives the help and
the hint; `--help`/`-h` the help; `--list`/`-l` the listing; `--config`/`-c` the path and
the count; every other string, the empty one included, the lookup of that string. The
exit code is 0 whenever `main` returns, and it returns (within three nested calls of the
loader) whenever the configuration file exists or can be written. -/
theorem C11_dispatch (config : RASCIIConfig) (argv argv2 : List Str)
    (fuel : Nat) (home : Str) (w : World) :
    (argv[1]? = argv2[1]? → dispatch config argv = dispatch config argv2) ∧
    (argv[1]? = none →
      dispatch config argv =
        print_help ++ "\nUse 'atyper --list' to see available arts.\n".toList) ∧
    (∀ arg, argv[1]? = some arg →
      ((arg = "--help".toList ∨ arg = "-h".toList) → dispatch config argv = print_help) ∧
      ((arg = "--list".toList ∨ arg = "-l".toList) →
        dispatch config argv = list_arts config.ascii_arts config.config_file) ∧
      ((arg = "--config".toList ∨ arg = "-c".toList) →
        dispatch config argv =
          "Config file: ".toList ++ config.config_file ++ "\n".toList ++
            "Total arts: ".toList ++ (Nat.repr config.ascii_arts.length).toList ++ "\n".toList) ∧
      (arg ∉ ["--help".toList, "-h".toList, "--list".toList, "-l".toList,
          "--config".toList, "-c".toList] →
        dispatch config argv = show_art_by_name config.ascii_arts arg)) ∧
    (∀ r, main fuel home w argv = some r → r.2.2 = 0) ∧
    ((w.file ≠ none ∨ w.writable = true) →
      ∃ w' c, RASCIIConfig.new (fuel + 3) home w = some (w', c) ∧
        main (fuel + 3) home w argv = some (w', dispatch c argv, 0)) := by
  have hform : ∀ (a : List Str), a[1]? = none → dispatch config a =
      print_help ++ "\nUse 'atyper --list' to see available arts.\n".toList := by
    intro a ha
    match a, ha with
    | [], _ => rfl
    | [_], _ => rfl
    | _ :: _ :: _, ha => simp at ha
  have hsome : ∀ (a : List Str) (arg : Str), a[1]? = some arg → dispatch config a =
      (if arg = "--help".toList ∨ arg = "-h".toList then print_help
        else if arg = "--list".toList ∨ arg = "-l".toList then
          list_arts config.ascii_arts config.config_file
        else if arg = "--config".toList ∨ arg = "-c".toList then
          "Config file: ".toList ++ config.config_file ++ NL ++
          "Total arts: ".toList ++ to_string config.ascii_arts.size ++ NL
        else show_art_by_name config.ascii_arts arg) := by
    intro a arg ha
    match a, ha with
    | [], ha => simp at ha
    | [_], ha => simp at ha
    | _ :: x :: _, ha =>
        have hx : x = arg := by simpa using ha
        rw [← hx]
        rfl
  refine ⟨?_, hform argv, ?_, ?_, ?_⟩
  · intro heq
    cases h1 : argv[1]? with
    | none =>
        rw [hform argv h1, hform argv2 (by rw [← heq]; exact h1)]
    | some arg =>
        rw [hsome argv arg h1, hsome argv2 arg (by rw [← heq]; exact h1)]
  · intro arg harg
    rw [hsome argv arg harg]
    refine ⟨?_, ?_, ?_, ?_⟩
    · intro h
      rw [if_pos h]
    · intro h
      have h1 : ¬ (arg = "--help".toList ∨ arg = "-h".toList) := by
        rcases h with h | h <;> rw [h] <;> decide
      rw [if_neg h1, if_pos h]
    · intro h
      have h1 : ¬ (arg = "--help".toList ∨ arg = "-h".toList) := by
        rcases h with h | h <;> rw [h] <;> decide
      have h2 : ¬ (arg = "--list".toList ∨ arg = "-l".toList) := by
        rcases h with h | h <;> rw [h] <;> decide
      rw [if_neg h1, if_neg h2, if_pos h]
      rfl
    · intro h
      simp only [List.mem_cons, List.mem_singleton, List.not_mem_nil, or_false, not_or] at h
      rw [if_neg (fun hc => hc.elim h.1 h.2.1), if_neg (fun hc => hc.elim h.2.2.1 h.2.2.2.1),
        if_neg (fun hc => hc.elim h.2.2.2.2.1 h.2.2.2.2.2)]
  · intro r hr
    unfold main at hr
    cases hn : RASCIIConfig.new fuel home w with
    | none => rw [hn] at hr; exact Option.noConfusion hr
    | some p =>
        rw [hn] at hr
        simp only [Option.some.injEq] at hr
        rw [← hr]
  · intro hw
    obtain ⟨w', c, hc⟩ := new_returns fuel home w hw
    refine ⟨w', c, hc, ?_⟩
    unfold main
    rw [hc]

theorem C11_dispatch_witness :
    (["atyper".toList, "".toList][1]? = ["prog".toList, "".toList, "more".toList][1]? →
      dispatch { config_dir := [], config_file := "/f".toList,
                 ascii_arts := [("tux".toList, "x\n".toList)] } ["atyper".toList, "".toList] =
      dispatch { config_dir := [], config_file := "/f".toList,
                 ascii_arts := [("tux".toList, "x\n".toList)] }
        ["prog".toList, "".toList, "more".toList]) ∧
    (["atyper".toList, "".toList][1]? = none →
      dispatch { config_dir := [], config_file := "/f".toList,
                 ascii_arts := [("tux".toList, "x\n".toList)] } ["atyper".toList, "".toList] =
        print_help ++ "\nUse 'atyper --list' to see available arts.\n".toList) ∧
    (∀ arg, ["atyper".toList, "".toList][1]? = some arg →
      ((arg = "--help".toList ∨ arg = "-h".toList) →
        dispatch { config_dir := [], config_file := "/f".toList,
                   ascii_arts := [("tux".toList, "x\n".toList)] } ["atyper".toList, "".toList]
          = print_help) ∧
      ((arg = "--list".toList ∨ arg = "-l".toList) →
        dispatch { config_dir := [], config_file := "/f".toList,
                   ascii_arts := [("tux".toList, "x\n".toList)] } ["atyper".toList, "".toList]
          = list_arts [("tux".toList, "x\n".toList)] "/f".toList) ∧
      ((arg = "--config".toList ∨ arg = "-c".toList) →
        dispatch { config_dir := [], config_file := "/f".toList,
                   ascii_arts := [("tux".toList, "x\n".toList)] } ["atyper".toList, "".toList]
          = "Config file: ".toList ++ "/f".toList ++ "\n".toList ++
            "Total arts: ".toList ++
            (Nat.repr ([("tux".toList, "x\n".toList)] : ArtMap).length).toList ++ "\n".toList) ∧
      (arg ∉ ["--help".toList, "-h".toList, "--list".toList, "-l".toList,
          "--config".toList, "-c".toList] →
        dispatch { config_dir := [], config_file := "/f".toList,
                   ascii_arts := [("tux".toList, "x\n".toList)] } ["atyper".toList, "".toList]
          = show_art_by_name [("tux".toList, "x\n".toList)] arg)) ∧
    (∀ r, main 3 "/home/u".toList { file := none, writable := true, writes := 0 }
        ["atyper".toList, "".toList] = some r → r.2.2 = 0) ∧
    (((({ file := none, writable := true, writes := 0 } : World).file ≠ none) ∨
        ({ file := none, writable := true, writes := 0 } : World).writable = true) →
      ∃ w' c, RASCIIConfig.new (3 + 3) "/home/u".toList
          { file := none, writable := true, writes := 0 } = some (w', c) ∧
        main (3 + 3) "/home/u".toList { file := none, writable := true, writes := 0 }
          ["atyper".toList, "".toList] = some (w', dispatch c ["atyper".toList, "".toList], 0)) :=
  C11_dispatch { config_dir := [], config_file := "/f".toList,
                 ascii_arts := [("tux".toList, "x\n".toList)] }
    ["atyper".toList, "".toList] ["prog".toList, "".toList, "more".toList]
    3 "/home/u".toList { file := none, writable := true, writes := 0 }

/-- C12: there is a file with two terminated blocks with malformed headers and non-empty
bodies that get the same generated name: after a block declared `unnamed_2` the
collection has one entry, so both malformed headers are named `unnamed_2`; the later
body replaces the earlier one and the final collection has a single entry. -/
theorem C12_generated_names_collide :
    ∃ (P : List Str) (h1 h2 : Str) (L1 L2 : List Str) (k : Nat),
      (ART_START <+: h1 ∧ find h1 HASHES 13 = none) ∧
      (ART_START <+: h2 ∧ find h2 HASHES 13 = none) ∧
      (L1 ≠ [] ∧ ∀ l ∈ L1, ¬ ART_START <+: l ∧ l ≠ ART_END) ∧
      (L2 ≠ [] ∧ ∀ l ∈ L2, ¬ ART_START <+: l ∧ l ≠ ART_END) ∧
      header_name (parse P) h1 = "unnamed_".toList ++ (Nat.repr k).toList ∧
      header_name (parse (P ++ [h1] ++ L1 ++ [ART_END])) h2 =
        "unnamed_".toList ++ (Nat.repr k).toList ∧
      (parse (P ++ [h1] ++ L1 ++ [ART_END])).find ("unnamed_".toList ++ (Nat.repr k).toList)
        = some (joinLines L1) ∧
      joinLines L1 ≠ joinLines L2 ∧
      parse (P ++ [h1] ++ L1 ++ [ART_END] ++ [h2] ++ L2 ++ [ART_END]) =
        [("unnamed_".toList ++ (Nat.repr k).toList, joinLines L2)] :=
  ⟨["###ART_START:unnamed_2###".toList, "a".toList, ART_END],
    "###ART_START:x".toList, "###ART_START:y".toList, ["b".toList], ["c".toList], 2,
    by decide⟩

/-- C13: for every list of lines, the loop of `load_config` (flag `in_art`, variables
`current_name` and `current_art` that outlive the end marker) computes the same final
collection as the two-state machine Outside-Block / Inside-Block(name, body) with the
transitions of the design notes. -/
theorem C13_two_state_machine (lines : List Str) : parse lines = machineParse lines :=
  (simulates_run lines _ _ simulates_init).1

/-- C14: take lines `P` in which no start line with a closing `###` declares a name of
the form `unnamed_<decimal number>`. A terminated block after `P` with a malformed
header (no `###` from position 13 on) and a non-empty body is committed under the
generated key, which is not a key of the collection of `P`: no earlier entry is
overwritten, every earlier entry keeps its body, and the size grows by exactly one. -/
theorem C14_generated_names_fresh (P : List Str) (h : Str) (L : List Str)
    (hdecl : ∀ l ∈ P, ART_START <+: l → ∀ e, find l HASHES 13 = some e →
      ∀ k, substr l 13 (e - 13) ≠ "unnamed_".toList ++ (Nat.repr k).toList)
    (hs : ART_START <+: h)
    (hno : ∀ j, 13 ≤ j → ¬ HASHES <+: h.drop j)
    (hL : L ≠ [])
    (hint : ∀ l ∈ L, ¬ ART_START <+: l ∧ l ≠ ART_END) :
    (parse P).find ("unnamed_".toList ++ (Nat.repr ((parse P).size + 1)).toList) = none ∧
    parse (P ++ [h] ++ L ++ [ART_END]) =
      (parse P).assign ("unnamed_".toList ++ (Nat.repr ((parse P).size + 1)).toList)
        (joinLines L) ∧
    (parse (P ++ [h] ++ L ++ [ART_END])).size = (parse P).size + 1 ∧
    (∀ k v, (parse P).find k = some v →
      (parse (P ++ [h] ++ L ++ [ART_END])).find k = some v) := by
  have hkey : ("unnamed_".toList ++ (Nat.repr ((parse P).size + 1)).toList : Str) =
      UNNAMED ++ to_string ((parse P).size + 1) := rfl
  rw [hkey]
  have hbound : GeneratedBound (runLines (initState []) P) :=
    runLines_generatedBound P _
      (fun l hl hsl e he k => hdecl l hl ((isStartLine_iff l).mp hsl) e he k)
      generatedBound_init
  have hfresh : UNNAMED ++ to_string ((parse P).size + 1) ∉ ArtMap.keys (parse P) := by
    intro hmem
    have := hbound.1 _ hmem ((parse P).size + 1) rfl
    have hsz : (runLines (initState []) P).ascii_arts.size = (parse P).size := rfl
    omega
  have hb := parse_block P h L hs hint
  have hname := header_name_generated (parse P) h hno
  have hne : UNNAMED ++ to_string ((parse P).size + 1) ≠ [] := by
    simp [UNNAMED]
  have hmain : parse (P ++ [h] ++ L ++ [ART_END]) =
      (parse P).assign (UNNAMED ++ to_string ((parse P).size + 1)) (joinLines L) := by
    have hp2 : parse (P ++ [h] ++ L ++ [ART_END]) =
        (runLines (initState []) (P ++ [h] ++ L ++ [ART_END])).ascii_arts := rfl
    rw [hp2, hb, hname]
    simp only []
    rw [if_pos ⟨joinLines_ne_nil L hL, hne⟩]
  refine ⟨(ArtMap.find_eq_none_iff _ _).mpr hfresh, hmain, ?_, ?_⟩
  · rw [hmain]
    exact ArtMap.size_assign_of_not_mem _ _ _ hfresh
  · intro k v hk
    rw [hmain, ArtMap.find_assign_ne _ _ _ k ?_, hk]
    intro hkg
    rw [hkg, (ArtMap.find_eq_none_iff _ _).mpr hfresh] at hk
    exact Option.noConfusion hk

theorem C14_generated_names_fresh_witness :
    (parse ["###ART_START:a###".toList, "x".toList, ART_END]).find
      ("unnamed_".toList ++
        (Nat.repr ((parse ["###ART_START:a###".toList, "x".toList, ART_END]).size + 1)).toList)
      = none ∧
    parse (["###ART_START:a###".toList, "x".toList, ART_END] ++ ["###ART_START:q".toList] ++
        ["z".toList] ++ [ART_END]) =
      (parse ["###ART_START:a###".toList, "x".toList, ART_END]).assign
        ("unnamed_".toList ++
          (Nat.repr ((parse ["###ART_START:a###".toList, "x".toList, ART_END]).size + 1)).toList)
        (joinLines ["z".toList]) ∧
    (parse (["###ART_START:a###".toList, "x".toList, ART_END] ++ ["###ART_START:q".toList] ++
        ["z".toList] ++ [ART_END])).size =
      (parse ["###ART_START:a###".toList, "x".toList, ART_END]).size + 1 ∧
    (∀ k v, (parse ["###ART_START:a###".toList, "x".toList, ART_END]).find k = some v →
      (parse (["###ART_START:a###".toList, "x".toList, ART_END] ++ ["###ART_START:q".toList] ++
        ["z".toList] ++ [ART_END])).find k = some v) :=
  C14_generated_names_fresh ["###ART_START:a###".toList, "x".toList, ART_END]
    "###ART_START:q".toList ["z".toList]
    (by
      intro l hl hst e he k hk
      have hpre : ("unnamed_".toList : Str) <+: substr l 13 (e - 13) := ⟨_, hk.symm⟩
      rw [List.mem_cons, List.mem_cons, List.mem_singleton] at hl
      rcases hl with h | h | h
      · subst h
        have h14 : find "###ART_START:a###".toList HASHES 13 = some 14 := by decide
        rw [h14] at he
        have he2 : e = 14 := (Option.some.inj he).symm
        subst he2
        exact absurd hpre (by decide)
      · subst h
        exact absurd hst (by decide)
      · subst h
        exact absurd hst (by decide))
    (by decide)
    (fun j hj => by
      intro hp
      have hlen := List.IsPrefix.length_le hp
      simp [HASHES] at hlen
      omega)
    (by decide) (by decide)

/-- C15: for every list of lines, every entry of the parsed collection has a non-empty
key without `###` and a non-empty body that ends with a newline; when the lines are
lines (no newline inside), the body read back line by line holds no line equal to
`###ART_END###` and no line beginning with `###ART_START:`. -/
theorem C15_entry_shape (lines : List Str) (key body : Str)
    (hmem : (key, body) ∈ parse lines) :
    key ≠ [] ∧ ¬ HASHES <:+: key ∧
    body ≠ [] ∧ body.getLast? = some '\n' ∧
    ((∀ l ∈ lines, '\n' ∉ l) →
      ∀ l ∈ getlines body, l ≠ ART_END ∧ ¬ ART_START <+: l) := by
  have hwf := runLines_wellFormed lines lines (initState []) (fun _ h => h)
    (wellFormed_init lines)
  obtain ⟨hk1, hk2, hb1, Ls, hLs, hall⟩ := hwf.1 (key, body) hmem
  refine ⟨hk1, hk2, hb1, ?_, ?_⟩
  · have hne : Ls ≠ [] := by
      intro hnil
      rw [hnil] at hLs
      exact hb1 hLs
    simp only [] at hLs
    rw [hLs]
    exact joinLines_getLast Ls hne
  · intro hnl l hl
    simp only [] at hLs
    rw [hLs, getlines_joinLines Ls (fun x hx => hnl x (hall x hx).1)] at hl
    exact ⟨(hall l hl).2.2, (not_isStartLine_iff l).mp (hall l hl).2.1⟩

theorem C15_entry_shape_witness :
    "tux".toList ≠ [] ∧ ¬ HASHES <:+: "tux".toList ∧
    "ab\ncd\n".toList ≠ [] ∧ "ab\ncd\n".toList.getLast? = some '\n' ∧
    ((∀ l ∈ ["###ART_START:tux###x".toList, "ab".toList, "cd".toList, ART_END], '\n' ∉ l) →
      ∀ l ∈ getlines "ab\ncd\n".toList, l ≠ ART_END ∧ ¬ ART_START <+: l) :=
  C15_entry_shape ["###ART_START:tux###x".toList, "ab".toList, "cd".toList, ART_END]
    "tux".toList "ab\ncd\n".toList (by decide)

/-- C16: a start marker inside an open block abandons that block. For all lists of lines
`P` and `S`, all lines `h1` and `h2` beginning with `###ART_START:` and every list `L` of
lines none of which is `###ART_END###`, parsing `P ++ [h1] ++ L ++ [h2] ++ S` gives the
same collection as parsing `P ++ [h2] ++ S`. -/
theorem C16_start_inside_block (P S : List Str) (h1 h2 : Str) (L : List Str)
    (hs1 : ART_START <+: h1) (hs2 : ART_START <+: h2) (hL : ∀ l ∈ L, l ≠ ART_END) :
    parse (P ++ [h1] ++ L ++ [h2] ++ S) = parse (P ++ [h2] ++ S) := by
  have harts : (runLines (initState []) (P ++ [h1] ++ L)).ascii_arts =
      (runLines (initState []) P).ascii_arts := by
    rw [List.append_assoc, runLines_append]
    apply runLines_arts_of_no_end
    intro l hl
    rcases List.mem_append.mp hl with hl | hl
    · rw [List.mem_singleton.mp hl]
      exact ne_end_of_start h1 hs1
    · exact hL l hl
  unfold parse
  rw [runLines_append, runLines_append _ (P ++ [h1] ++ L) [h2],
    runLines_append _ (P ++ [h2]) S, runLines_append _ P [h2]]
  rw [runLines_cons, runLines_nil, runLines_cons, runLines_nil]
  rw [step_start_of_arts_eq _ _ h2 ((isStartLine_iff h2).mpr hs2) harts]

theorem C16_start_inside_block_witness :
    parse (["###ART_START:a###".toList, "x".toList, ART_END] ++ ["###ART_START:b###".toList] ++
        ["y".toList, "###ART_START:c".toList, "z".toList] ++ ["###ART_START:d###".toList] ++
        ["w".toList, ART_END]) =
      parse (["###ART_START:a###".toList, "x".toList, ART_END] ++ ["###ART_START:d###".toList] ++
        ["w".toList, ART_END]) :=
  C16_start_inside_block _ _ _ _ _ (by decide) (by decide) (by decide)

end Atyper
